import Mathlib

/-!
Verification development for the TingWu Chinese ASR post-processing core.

Shallow embedding of the core text algorithms:
* `StreamMerger`  — src/core/text_processor/stream_merger.py
* `Hotword`       — src/core/hotword/phoneme.py, algo_calc.py, rag.py, corrector.py
* `Rectify`       — src/core/hotword/rectification.py (record loading)
* `ITN`           — src/core/text_processor/chinese_itn.py

Python strings are modelled as `List Char`; float scores and costs are
modelled as `ℚ` (all costs in the source are sums of 0.5/1.0 steps, so the
float arithmetic is exact there); Python ints are `Nat` where they are
provably non-negative in the source.  Definitions are executable so that
all concrete facts are checked by `decide`/`rfl`.
-/

namespace Py

/-- Python `s[-n:]` for `n ≥ 1` (clamped to the whole list when `n > |s|`). -/
def takeRight (l : List Char) (n : Nat) : List Char :=
  l.drop (l.length - n)

/-- Python `s[a:b]` for non-negative bounds (clamps, empty when `b ≤ a`). -/
def slice (l : List Char) (a b : Nat) : List Char :=
  (l.drop a).take (b - a)

/-- Python `str.strip()` (whitespace on both ends). -/
def strip (l : List Char) : List Char :=
  (l.dropWhile Char.isWhitespace).reverse.dropWhile Char.isWhitespace |>.reverse

/-- Python `s.split('\n')` (keeps empty pieces). -/
def splitNl : List Char → List (List Char)
  | [] => [[]]
  | c :: cs =>
    match splitNl cs with
    | [] => [[]]
    | p :: ps => if c = '\n' then [] :: p :: ps else (c :: p) :: ps

/-- Python `s.startswith(p)`. -/
def startswith (l p : List Char) : Bool :=
  p.isPrefixOf l

/-- Python `s.endswith(p)`. -/
def endswith (l p : List Char) : Bool :=
  p.isSuffixOf l

/-- Fuelled worker for `splitSub` (fuel bounds the number of consumed chars). -/
def splitSubF (sep : List Char) : Nat → List Char → List (List Char)
  | _, [] => [[]]
  | 0, l => [l]
  | fuel + 1, c :: cs =>
    if sep.isPrefixOf (c :: cs) ∧ sep ≠ [] then
      [] :: splitSubF sep fuel ((c :: cs).drop sep.length)
    else
      match splitSubF sep fuel cs with
      | [] => [[c]]
      | p :: ps => (c :: p) :: ps

/-- Python `s.split(sep)` for a non-empty separator substring:
non-overlapping, leftmost-first. -/
def splitSub (sep l : List Char) : List (List Char) :=
  splitSubF sep l.length l

/-- Python `s.split(ch)` on a single character (keeps empty pieces). -/
def splitChar (ch : Char) : List Char → List (List Char)
  | [] => [[]]
  | c :: cs =>
    match splitChar ch cs with
    | [] => [[]]
    | p :: ps => if c = ch then [] :: p :: ps else (c :: p) :: ps

/-- Python `re.split('[c...]', s)`: split on any character of a class. -/
def splitAnyChar (cls : List Char) : List Char → List (List Char)
  | [] => [[]]
  | c :: cs =>
    match splitAnyChar cls cs with
    | [] => [[]]
    | p :: ps => if cls.contains c then [] :: p :: ps else (c :: p) :: ps

/-- Python `s.find(sub)`: index of the first occurrence, `none` when absent. -/
def find (l sub : List Char) : Option Nat :=
  go l 0
where
  go : List Char → Nat → Option Nat
    | [], i => if sub = [] then some i else none
    | c :: cs, i => if sub.isPrefixOf (c :: cs) then some i else go cs (i + 1)

/-- Python `s.zfill(w)`: left-pad with `'0'` to width `w`. -/
def zfill (l : List Char) (w : Nat) : List Char :=
  List.replicate (w - l.length) '0' ++ l

/-- First-seen-order deduplication (used to model iterating a Python `set`
of already-seen keys; the iteration order of the set itself is modelled as
first-appearance order). -/
def dedup : List Nat → List Nat → List Nat
  | [], _ => []
  | x :: xs, seen =>
    if seen.contains x then dedup xs seen
    else x :: dedup xs (x :: seen)

/-- Lookup in an insertion-ordered association list (first match),
modelling a Python `dict` indexing. -/
def assocFind {α : Type} : List (List Char × α) → List Char → Option α
  | [], _ => none
  | (k, v) :: rest, key => if k = key then some v else assocFind rest key

/-- Stable insertion placing `x` after every element `y` with `gt y x`
(`gt y x` = "`y`'s key strictly precedes `x`'s key in the sort order"). -/
def insertOrd {α : Type} (gt : α → α → Bool) (x : α) : List α → List α
  | [] => [x]
  | y :: ys => if gt y x then y :: insertOrd gt x ys else x :: y :: ys

/-- Stable sort (models CPython's stable `list.sort` for the given order). -/
def sortOrd {α : Type} (gt : α → α → Bool) : List α → List α
  | [] => []
  | x :: xs => insertOrd gt x (sortOrd gt xs)

end Py

/-! ## StreamMerger — src/core/text_processor/stream_merger.py -/

namespace StreamMerger

/-- Inner loop of `levenshtein_distance`: one DP row.  `prev` is the previous
row aligned so that its head is `prev[j-1]`; `left` is `curr[j-1]`. -/
def levGo (c1 : Char) : List Char → List Nat → Nat → List Nat
  | [], _, _ => []
  | c2 :: cs, pjm1 :: ptail, left =>
    let cur := if c1 = c2 then pjm1 else Nat.min (ptail.headD 0) (Nat.min left pjm1) + 1
    cur :: levGo c1 cs ptail cur
  | _ :: _, [], _ => []

/-- Row recursion of `levenshtein_distance`. -/
def levRows (s2 : List Char) : List Char → List Nat → Nat → List Nat
  | [], prev, _ => prev
  | c1 :: rest, prev, i => levRows s2 rest (i :: levGo c1 s2 prev i) (i + 1)

/-- `levenshtein_distance` (space-optimised rows, swap so `s1` is longest). -/
def levenshteinDistance (s1 s2 : List Char) : Nat :=
  let p := if s1.length < s2.length then (s2, s1) else (s1, s2)
  if p.2.length = 0 then p.1.length
  else (levRows p.2 p.1 (List.range (p.2.length + 1)) 1).getLastD 0

/-- Configuration of `StreamTextMerger.__init__` (defaults 5/1/20). -/
structure Cfg where
  overlapChars : Nat := 5
  errorTolerance : Nat := 1
  maxOverlapCheck : Nat := 20

/-- Phase 1 of `_find_overlap`: exact suffix/prefix match, longest first,
`for overlap in range(min(max_check, overlap_chars), 0, -1)`. -/
def exactLoop (old new : List Char) : Nat → Option Nat
  | 0 => none
  | k + 1 =>
    if Py.takeRight old (k + 1) = new.take (k + 1) then some (k + 1)
    else exactLoop old new k

/-- Phase 2 of `_find_overlap`: fuzzy match,
`for overlap in range(overlap_chars, 1, -1)` with the length guard. -/
def fuzzyLoop (tol : Nat) (old new : List Char) : Nat → Option Nat
  | 0 => none
  | k + 1 =>
    if k + 1 < 2 then none
    else if k + 1 > old.length ∨ k + 1 > new.length then fuzzyLoop tol old new k
    else if levenshteinDistance (Py.takeRight old (k + 1)) (new.take (k + 1)) ≤ tol then
      some (k + 1)
    else fuzzyLoop tol old new k

/-- `StreamTextMerger._find_overlap`. -/
def findOverlap (cfg : Cfg) (old new : List Char) : Nat × Bool :=
  let maxCheck := Nat.min (Nat.min old.length new.length) cfg.maxOverlapCheck
  if maxCheck < 2 then (0, false)
  else
    match exactLoop old new (Nat.min maxCheck cfg.overlapChars) with
    | some l => (l, true)
    | none =>
      if cfg.errorTolerance > 0 then
        match fuzzyLoop cfg.errorTolerance old new cfg.overlapChars with
        | some l => (l, false)
        | none => (0, false)
      else (0, false)

/-- `StreamTextMerger.merge`: returns `(delta, new buffer)`. -/
def merge (cfg : Cfg) (buffer newText : List Char) : List Char × List Char :=
  if newText = [] then ([], buffer)
  else if buffer = [] then (newText, newText)
  else
    let ov := (findOverlap cfg buffer newText).1
    if ov > 0 then (newText.drop ov, buffer ++ newText.drop ov)
    else (newText, buffer ++ newText)

/-- Run a sequence of `merge` calls, recording `(delta, buffer-after)` pairs. -/
def mergeTrace (cfg : Cfg) : List Char → List (List Char) → List (List Char × List Char)
  | _, [] => []
  | buf, t :: ts =>
    let r := merge cfg buf t
    r :: mergeTrace cfg r.2 ts

end StreamMerger

/-! ## Rectification history loading — src/core/hotword/rectification.py -/

namespace Rectify

/-- The record separator substring `'---'`. -/
def threeDashes : List Char := "---".data

/-- Per-block record extraction in `RectificationRAG.load_history`: strip the
block, split on `'\n'`, strip each line, drop blanks and `#`-comments, and
keep the first two remaining lines as `(wrong, right)`. -/
def blockRecord (block : List Char) : Option (List Char × List Char) :=
  let lines := Py.splitNl (Py.strip block)
  let valid := (lines.map Py.strip).filter fun l => l ≠ [] ∧ ¬ Py.startswith l "#".data
  match valid with
  | w :: r :: _ => if w ≠ [] ∧ r ≠ [] then some (w, r) else none
  | _ => none

/-- `RectificationRAG.load_history`, restricted to the `(wrong, right)` pairs
of the records it builds (the diff fragments are not needed by the claim):
`content.split('---')`, then per-block extraction. -/
def loadHistoryRecords (content : List Char) : List (List Char × List Char) :=
  (Py.splitSub threeDashes content).filterMap blockRecord

/-- Split a list of lines into blocks at lines equal to `---`. -/
def splitAtSepLines : List (List Char) → List (List (List Char))
  | [] => [[]]
  | l :: ls =>
    match splitAtSepLines ls with
    | [] => [[]]
    | b :: bs => if l = threeDashes then [] :: b :: bs else (l :: b) :: bs

/-- Modelled from the spec's words, for comparison with the source: records
separated by LINES consisting solely of `---`; within each record the first
two non-comment non-blank lines are `wrong` and `right`. -/
def loadHistoryLineSpec (content : List Char) : List (List Char × List Char) :=
  (splitAtSepLines (Py.splitNl content)).filterMap fun blockLines =>
    let valid := (blockLines.map Py.strip).filter fun l =>
      l ≠ [] ∧ ¬ Py.startswith l "#".data
    match valid with
    | w :: r :: _ => some (w, r)
    | _ => none

/-- Join blocks with the `---` separator (used to state, in the amended C8
theorem, where the source splits). -/
def joinSep : List (List Char) → List Char
  | [] => []
  | [b] => b
  | b :: bs => b ++ threeDashes ++ joinSep bs

end Rectify

/-! ## Phoneme model and edit costs — src/core/hotword/phoneme.py, algo_calc.py -/

namespace Hotword

/-- The `lang` tag of a phoneme atom. -/
inductive Lang where
  | zh | en | num | other
deriving DecidableEq, Repr

/-- `Phoneme` dataclass (value, lang, word-boundary flags, char span). -/
structure Phoneme where
  value : List Char
  lang : Lang
  isWordStart : Bool := false
  isWordEnd : Bool := false
  charStart : Nat := 0
  charEnd : Nat := 0
deriving DecidableEq, Repr

/-- `Phoneme.is_tone` property: `self.value.isdigit()` (non-empty, all
digits). -/
def Phoneme.isTone (p : Phoneme) : Bool :=
  p.value ≠ [] ∧ p.value.all Char.isDigit

/-- `SIMILAR_PHONEMES`: the fixed families of confusable Mandarin phonemes. -/
def SIMILAR_PHONEMES : List (List (List Char)) :=
  [["an".data, "ang".data], ["en".data, "eng".data], ["in".data, "ing".data],
   ["ian".data, "iang".data], ["uan".data, "uang".data],
   ["z".data, "zh".data], ["c".data, "ch".data], ["s".data, "sh".data],
   ["l".data, "n".data],
   ["f".data, "h".data],
   ["ai".data, "ei".data], ["o".data, "uo".data], ["e".data, "ie".data],
   ["p".data, "b".data], ["t".data, "d".data], ["k".data, "g".data]]

/-- `{a, b}.issubset(s)` for a two-element candidate pair against a family. -/
def similarPair (a b : List Char) : Bool :=
  SIMILAR_PHONEMES.any fun s => s.contains a && s.contains b

/-- Inner loop of `lcs_length`: one DP row (`prev` aligned so its head is
`prev[j-1]`, `left` is `curr[j-1]`). -/
def lcsRow (c1 : Char) : List Char → List Nat → Nat → List Nat
  | [], _, _ => []
  | c2 :: cs, pjm1 :: ptail, left =>
    let cur := if c1 = c2 then pjm1 + 1 else Nat.max (ptail.headD 0) left
    cur :: lcsRow c1 cs ptail cur
  | _ :: _, [], _ => []

/-- `lcs_length`: longest common subsequence length (rolling rows, swap so
the first argument is longest). -/
def lcsLength (s1 s2 : List Char) : Nat :=
  let p := if s1.length < s2.length then (s2, s1) else (s1, s2)
  if p.2.length = 0 then 0
  else
    (p.1.foldl (fun prev c1 => 0 :: lcsRow c1 p.2 prev 0)
      (List.replicate (p.2.length + 1) 0)).getLastD 0

/-- `get_phoneme_cost` (the `Phoneme`-object cost): different lang 1.0,
equal value 0.0, similar zh pair 0.5, English LCS ratio, otherwise 1.0.
There is no tone-digit special case in this function. -/
def getPhonemeCost (p1 p2 : Phoneme) : ℚ :=
  if p1.lang ≠ p2.lang then 1
  else if p1.value = p2.value then 0
  else if p1.lang = Lang.zh ∧ p2.lang = Lang.zh ∧ similarPair p1.value p2.value then 1/2
  else if p1.lang = Lang.en ∧ p2.lang = Lang.en ∧
      0 < Nat.max p1.value.length p2.value.length then
    1 - (lcsLength p1.value p2.value : ℚ) / (Nat.max p1.value.length p2.value.length : ℚ)
  else 1

/-- `get_tuple_cost` (the info-tuple cost used on the hot path): same rules
as `get_phoneme_cost` plus the special case that two zh tone atoms with
different values cost 0.5 (checked before the similar-pair families). -/
def getTupleCost (t1 t2 : Phoneme) : ℚ :=
  if t1.lang ≠ t2.lang then 1
  else if t1.value = t2.value then 0
  else if t1.lang = Lang.zh ∧ t1.isTone ∧ t2.isTone then 1/2
  else if t1.lang = Lang.zh ∧ similarPair t1.value t2.value then 1/2
  else if t1.lang = Lang.en ∧ 0 < Nat.max t1.value.length t2.value.length then
    1 - (lcsLength t1.value t2.value : ℚ) / (Nat.max t1.value.length t2.value.length : ℚ)
  else 1

/-- The ten possible single-digit tone values. -/
def toneDigitValues : List (List Char) :=
  [['0'], ['1'], ['2'], ['3'], ['4'], ['5'], ['6'], ['7'], ['8'], ['9']]

/-! ### FastRAG — src/core/hotword/rag.py -/

/-- State of a `FastRAG` instance: threshold, the value→id map `ph_to_id`
(insertion-ordered), the inverted index (defaultdict code → entries), and
`hotword_count`. -/
structure RagState where
  threshold : ℚ
  phToId : List (List Char × Nat) := []
  index : List (Nat × List (List Char × List Nat)) := []
  hotwordCount : Nat := 0
deriving DecidableEq, Repr

/-- One step of `FastRAG._encode`: `ph_to_id[v] = len(ph_to_id) + 1` on
first sight. -/
def encodeOne (st : RagState) (v : List Char) : Nat × RagState :=
  match Py.assocFind st.phToId v with
  | some i => (i, st)
  | none =>
    let i := st.phToId.length + 1
    (i, { st with phToId := st.phToId ++ [(v, i)] })

/-- `FastRAG._encode`: encode a phoneme sequence into integer codes,
allocating ids on first sight (this mutates `ph_to_id`). -/
def encode (st : RagState) : List Phoneme → List Nat × RagState
  | [] => ([], st)
  | p :: ps =>
    let r := encodeOne st p.value
    let rest := encode r.2 ps
    (r.1 :: rest.1, rest.2)

/-- `self.index[c].append(e)` on the defaultdict-backed inverted index. -/
def indexAppend (idx : List (Nat × List (List Char × List Nat))) (c : Nat)
    (e : List Char × List Nat) : List (Nat × List (List Char × List Nat)) :=
  match idx with
  | [] => [(c, [e])]
  | (k, l) :: rest =>
    if k = c then (k, l ++ [e]) :: rest else (k, l) :: indexAppend rest c e

/-- `self.index.get(c, [])`. -/
def indexGet (idx : List (Nat × List (List Char × List Nat))) (c : Nat) :
    List (List Char × List Nat) :=
  match idx with
  | [] => []
  | (k, l) :: rest => if k = c then l else indexGet rest c

/-- `FastRAG.add_hotwords`: skip empty sequences, encode, index under the
codes of the first up-to-two atoms, bump the count. -/
def addHotwords (st : RagState) (hws : List (List Char × List Phoneme)) : RagState :=
  hws.foldl (fun st hw =>
    if hw.2 = [] then st
    else
      let r := encode st hw.2
      let idx := (r.1.take 2).foldl (fun idx c => indexAppend idx c (hw.1, r.1)) r.2.index
      { r.2 with index := idx, hotwordCount := r.2.hotwordCount + 1 }) st

/-- One DP row of `_fuzzy_substring_numba` (exact-only integer costs);
`prev` aligned so its head is `dp[i-1][j-1]`, `left` is `dp[i][j-1]`. -/
def fsRow (x : Nat) : List Nat → List Nat → Nat → List Nat
  | [], _, _ => []
  | mj :: ms, pjm1 :: ptail, left =>
    let cost := if x = mj then 0 else 1
    let cur := Nat.min (ptail.headD 0 + 1) (Nat.min (left + 1) (pjm1 + cost))
    cur :: fsRow x ms ptail cur
  | _ :: _, [], _ => []

/-- Row recursion of `_fuzzy_substring_numba` over the `sub` sequence. -/
def fsRows (main : List Nat) : List Nat → List Nat → Nat → List Nat
  | [], prev, _ => prev
  | x :: xs, prev, i => fsRows main xs (i :: fsRow x main prev i) (i + 1)

/-- `_fuzzy_substring_numba(main, sub)`: fuzzy substring distance, pure
integer costs; `min(dp[n, 1:])` of the final row. -/
def fuzzySubNat (main sub : List Nat) : Nat :=
  if sub.length = 0 ∨ main.length = 0 then sub.length
  else
    match (fsRows main sub (List.replicate (main.length + 1) 0) 1).drop 1 with
    | [] => 0
    | y :: ys => ys.foldl Nat.min y

/-- Python `round(x, 3)` on a score.  CPython rounds the float half-to-even;
scores here are exact rationals and no claim depends on the tie direction,
so this is modelled as rounding at 3 decimals with `round`. -/
def round3 (q : ℚ) : ℚ := (round (q * 1000) : ℚ) / 1000

/-- `FastRAG.search`: encodes the query via `_encode` (allocating ids for
unseen values), collects candidates under the query's unique codes, dedups
by hotword, length-filters, scores, sorts descending, truncates to `top_k`.
Returns the results together with the post-call state.  (The iteration
order of the Python `set` of unique codes is modelled as first-appearance
order.) -/
def ragSearch (st : RagState) (inputPhs : List Phoneme) (topK : Nat) :
    List (List Char × ℚ) × RagState :=
  if inputPhs = [] then ([], st)
  else
    let r := encode st inputPhs
    let inputCodes := r.1
    let st' := r.2
    let unique := Py.dedup inputCodes []
    let candidates := unique.foldl (fun acc c => acc ++ indexGet st'.index c) []
    let results := (candidates.foldl (fun acc e =>
      if acc.1.contains e.1 ∨ e.2.length > inputCodes.length + 3 then acc
      else
        let dist := fuzzySubNat inputCodes e.2
        let score := 1 - (dist : ℚ) / (e.2.length : ℚ)
        if score ≥ st'.threshold then (acc.1 ++ [e.1], acc.2 ++ [(e.1, round3 score)])
        else (acc.1 ++ [e.1], acc.2)) (([] : List (List Char)), ([] : List (List Char × ℚ)))).2
    ((Py.sortOrd (fun y x => decide (x.2 < y.2)) results).take topK, st')

/-! ### PhonemeCorrector — src/core/hotword/corrector.py -/

/-- `MatchResult` named tuple (`stop` models the reserved name `end`). -/
structure MatchR where
  start : Nat
  stop : Nat
  score : ℚ
  hotword : List Char
deriving DecidableEq, Repr

/-- `CorrectionResult` named tuple (`matchList` models the field name
`matches`, a reserved word in Lean). -/
structure CorrectionResult where
  text : List Char
  matchList : List (List Char × ℚ)
  similars : List (List Char × ℚ)
deriving DecidableEq, Repr

/-- `PhonemeCorrector` state: thresholds, the hotword dictionary, and the
`FastRAG` built over it. -/
structure CorrState where
  threshold : ℚ
  simThreshold : ℚ
  hotwords : List (List Char × List Phoneme)
  rag : RagState
deriving Repr

/-- `update_hotwords`' store replacement, starting from an already-parsed
hotword dictionary: the store becomes `d` and a fresh `FastRAG` with
threshold `min(threshold, similar_threshold) - 0.1` is built over it. -/
def mkCorrector (t simT : ℚ) (d : List (List Char × List Phoneme)) : CorrState :=
  ⟨t, simT, d, addHotwords ⟨min t simT - 1/10, [], [], 0⟩ d⟩

/-- `PhonemeCorrector._fuzzy_score`: aligned substitution-only cost over a
same-length window (exact 0, similar-zh 0.5, otherwise 1), normalised. -/
def fuzzyScore (target source : List Phoneme) : ℚ :=
  if target.length = 0 then 0
  else
    let total := (target.zip source).foldl (fun acc ts =>
      if ts.1.value ≠ ts.2.value then
        if ts.1.lang = Lang.zh ∧ ts.2.lang = Lang.zh then
          if similarPair ts.1.value ts.2.value then acc + 1/2 else acc + 1
        else acc + 1
      else acc) 0
    1 - total / (target.length : ℚ)

/-- The same-length windows of `_find_matches` for one hotword that reach
the match threshold: slide over the input, skip windows whose first atom is
not a word start, keep windows with `score ≥ threshold`. -/
def windowMatches (t : ℚ) (phs : List Phoneme) (hw : List Char)
    (input : List Phoneme) : List MatchR :=
  if phs.length > input.length then []
  else
    (List.range (input.length - phs.length + 1)).filterMap fun i =>
      match ((input.drop i).take phs.length : List Phoneme) with
      | [] => none
      | s0 :: seg' =>
        if ¬ s0.isWordStart then none
        else
          let sc := fuzzyScore phs (s0 :: seg')
          if sc ≥ t then some ⟨s0.charStart, ((s0 :: seg').getLastD s0).charEnd, sc, hw⟩
          else none

/-- All word-start windows of `_find_matches` for one hotword (recorded as
`similars` regardless of score). -/
def windowSimilars (phs : List Phoneme) (hw : List Char)
    (input : List Phoneme) : List MatchR :=
  if phs.length > input.length then []
  else
    (List.range (input.length - phs.length + 1)).filterMap fun i =>
      match ((input.drop i).take phs.length : List Phoneme) with
      | [] => none
      | s0 :: seg' =>
        if ¬ s0.isWordStart then none
        else some ⟨s0.charStart, ((s0 :: seg').getLastD s0).charEnd,
          fuzzyScore phs (s0 :: seg'), hw⟩

/-- `self.hotwords[hw]` lookup followed by the window scan.  The `none`
branch is unreachable when the corrector state is built by
`update_hotwords` (the FastRAG only indexes stored hotwords; Python would
raise `KeyError` there). -/
def hwWindows (t : ℚ) (hotwords : List (List Char × List Phoneme))
    (input : List Phoneme) (hw : List Char) : List MatchR :=
  match Py.assocFind hotwords hw with
  | none => []
  | some phs => windowMatches t phs hw input

/-- Companion of `hwWindows` for the similars. -/
def hwSimWindows (hotwords : List (List Char × List Phoneme))
    (input : List Phoneme) (hw : List Char) : List MatchR :=
  match Py.assocFind hotwords hw with
  | none => []
  | some phs => windowSimilars phs hw input

/-- The `matches` list built by `_find_matches` over the FastRAG results
(the source fills `matches` and `similars` in one loop; they are collected
here by two passes over the same windows). -/
def collectMatches (t : ℚ) (hotwords : List (List Char × List Phoneme))
    (fastResults : List (List Char × ℚ)) (input : List Phoneme) : List MatchR :=
  fastResults.foldl (fun acc r => acc ++ hwWindows t hotwords input r.1) []

/-- The raw `similars` list built by `_find_matches`. -/
def collectSimilars (hotwords : List (List Char × List Phoneme))
    (fastResults : List (List Char × ℚ)) (input : List Phoneme) : List MatchR :=
  fastResults.foldl (fun acc r => acc ++ hwSimWindows hotwords input r.1) []

/-- The similars filter of `_find_matches`: stable sort by score descending,
keep `score ≥ similar_threshold`, deduplicate by hotword keeping the
first. -/
def simsFinal (simT : ℚ) (sims : List MatchR) : List MatchR :=
  go (Py.sortOrd (fun y x => decide (x.score < y.score)) sims) []
where
  go : List MatchR → List (List Char) → List MatchR
    | [], _ => []
    | m :: ms, seen =>
      if m.score ≥ simT ∧ ¬ seen.contains m.hotword then
        m :: go ms (seen ++ [m.hotword])
      else go ms seen

/-- Accumulator of the `_resolve_and_replace` loop. -/
structure RState where
  final : List MatchR := []
  allInfo : List (List Char × ℚ) := []
  seen : List (List Char × ℚ) := []
  occupied : List (Nat × Nat) := []
deriving Repr

/-- The `seen`/`all_info` bookkeeping at the top of the loop body. -/
def infoUpdate (st : RState) (m : MatchR) : RState :=
  if st.seen.contains (m.hotword, m.score) then st
  else { st with allInfo := st.allInfo ++ [(m.hotword, m.score)],
                 seen := st.seen ++ [(m.hotword, m.score)] }

/-- One iteration of the `_resolve_and_replace` loop: record info, drop
below-threshold matches, drop overlapping matches, append a replacement
only when `text[start:end] != hotword`, and always occupy the span. -/
def resolveStep (t : ℚ) (text : List Char) (st : RState) (m : MatchR) : RState :=
  let st1 := infoUpdate st m
  if m.score < t then st1
  else if st1.occupied.any (fun r => decide (¬ (m.stop ≤ r.1 ∨ m.start ≥ r.2))) then st1
  else
    let st2 :=
      if Py.slice text m.start m.stop ≠ m.hotword then
        { st1 with final := st1.final ++ [m] }
      else st1
    { st2 with occupied := st2.occupied ++ [(m.start, m.stop)] }

/-- `matches.sort(key=lambda x: (x.score, x.end - x.start), reverse=True)`
(stable descending by score, then span length). -/
def sortMatchesDesc (ms : List MatchR) : List MatchR :=
  Py.sortOrd (fun y x => decide (x.score < y.score ∨
    (x.score = y.score ∧ x.stop - x.start < y.stop - y.start))) ms

/-- The sorted loop of `_resolve_and_replace`. -/
def resolveCore (t : ℚ) (text : List Char) (ms : List MatchR) : RState :=
  (sortMatchesDesc ms).foldl (resolveStep t text) {}

/-- Python slice assignment `result[start:end] = list(hotword)`. -/
def spliceAssign (l : List Char) (s e : Nat) (r : List Char) : List Char :=
  l.take s ++ r ++ l.drop (Nat.max s e)

/-- `_resolve_and_replace`: resolve, splice replacements right-to-left, and
return `(new text, applied matches by position, all_info)`. -/
def resolveAndReplace (t : ℚ) (text : List Char) (ms : List MatchR) :
    List Char × List (List Char × ℚ) × List (List Char × ℚ) :=
  let st := resolveCore t text ms
  let spliced := (Py.sortOrd (fun y x => decide (x.start < y.start)) st.final).foldl
    (fun acc m => spliceAssign acc m.start m.stop m.hotword) text
  (spliced,
   (Py.sortOrd (fun y x => decide (y.start < x.start)) st.final).map
     (fun m => (m.hotword, m.score)),
   st.allInfo)

/-- `PhonemeCorrector.correct`.  The phonemizer (`get_phoneme_info`, backed
by the external pypinyin data) is passed as the parameter `G`; it is a pure
function of the text. -/
def correct (G : List Char → List Phoneme) (st : CorrState) (text : List Char)
    (topK : Nat) : CorrectionResult :=
  if text = [] then ⟨[], [], []⟩
  else
    let inputPhs := G text
    if inputPhs = [] then ⟨text, [], []⟩
    else
      let fastResults := (ragSearch st.rag inputPhs 100).1
      let found := collectMatches st.threshold st.hotwords fastResults inputPhs
      let sims := simsFinal st.simThreshold (collectSimilars st.hotwords fastResults inputPhs)
      let r := resolveAndReplace st.threshold text found
      ⟨r.1, r.2.1, (sims.take topK).map fun m => (m.hotword, m.score)⟩

end Hotword

/-! ## ITN — src/core/text_processor/chinese_itn.py -/

namespace ITN

/-- Regex AST for the fragment of Python `re` used by `chinese_itn.py`:
character classes, literals, sequencing, left-preferring alternation,
greedy option and star, numbered capture groups, fixed-width lookbehinds
(positive and negative), conditional groups `(?(n)yes|no)` and the
end-of-string anchor `$`. -/
inductive RE where
  | eps
  | cls (p : Char → Bool)
  | lit (s : List Char)
  | seq (a b : RE)
  | alt (a b : RE)
  | opt (a : RE)
  | star (a : RE)
  | grp (n : Nat) (a : RE)
  | lookb (ps : List (Char → Bool))
  | nlookb (ps : List (Char → Bool))
  | cond (n : Nat) (a b : RE)
  | eos

/-- Greedy `+` as `a · a*`. -/
def RE.plus (a : RE) : RE := .seq a (.star a)

/-- Captured group spans: `(group, start, end)`, most recent first. -/
abbrev Caps := List (Nat × Nat × Nat)

/-- Check a fixed-width lookbehind given the classes in reverse order
against the reversed already-consumed text. -/
def lbCheckRev : List (Char → Bool) → List Char → Bool
  | [], _ => true
  | _ :: _, [] => false
  | p :: ps, c :: cs => p c && lbCheckRev ps cs

/-- Check a fixed-width lookbehind (classes in pattern order). -/
def lbCheck (ps : List (Char → Bool)) (pre : List Char) : Bool :=
  lbCheckRev ps.reverse pre

/-- Consume a literal. -/
def litRun (k : List Char → List Char → Nat → Caps → Option (Nat × Caps)) :
    List Char → List Char → List Char → Nat → Caps → Option (Nat × Caps)
  | [], pre, rest, pos, caps => k pre rest pos caps
  | c :: cs, pre, rest, pos, caps =>
    match rest with
    | [] => none
    | r :: rs => if r = c then litRun k cs (r :: pre) rs (pos + 1) caps else none

/-- Backtracking matcher in continuation-passing style, mirroring CPython's
`sre` semantics for this fragment: alternation prefers the left branch,
`?`/`*` are greedy, a `*` whose body matched empty stops iterating, and the
first overall success is returned.  `pre` is the already-consumed text
reversed (for lookbehinds), `fuel` bounds the call depth. -/
def mrun : Nat → RE → List Char → List Char → Nat → Caps →
    (List Char → List Char → Nat → Caps → Option (Nat × Caps)) → Option (Nat × Caps)
  | 0, _, _, _, _, _, _ => none
  | fuel + 1, re, pre, rest, pos, caps, k =>
    match re with
    | .eps => k pre rest pos caps
    | .cls p =>
      match rest with
      | [] => none
      | c :: rs => if p c then k (c :: pre) rs (pos + 1) caps else none
    | .lit s => litRun k s pre rest pos caps
    | .seq a b =>
      mrun fuel a pre rest pos caps (fun pre' rest' pos' caps' =>
        mrun fuel b pre' rest' pos' caps' k)
    | .alt a b =>
      match mrun fuel a pre rest pos caps k with
      | some r => some r
      | none => mrun fuel b pre rest pos caps k
    | .opt a =>
      match mrun fuel a pre rest pos caps k with
      | some r => some r
      | none => k pre rest pos caps
    | .star a =>
      match mrun fuel a pre rest pos caps (fun pre' rest' pos' caps' =>
          if pos' = pos then k pre' rest' pos' caps'
          else mrun fuel (.star a) pre' rest' pos' caps' k) with
      | some r => some r
      | none => k pre rest pos caps
    | .grp n a =>
      mrun fuel a pre rest pos caps (fun pre' rest' pos' caps' =>
        k pre' rest' pos' ((n, pos, pos') :: caps'))
    | .lookb ps => if lbCheck ps pre then k pre rest pos caps else none
    | .nlookb ps => if lbCheck ps pre then none else k pre rest pos caps
    | .cond n a b =>
      match caps.find? (fun c => c.1 == n) with
      | some _ => mrun fuel a pre rest pos caps k
      | none => mrun fuel b pre rest pos caps k
    | .eos =>
      match rest with
      | [] => k pre rest pos caps
      | _ :: _ => none

/-- Fuel that comfortably bounds the matcher's call depth for the fixed
patterns of `chinese_itn.py` on a given text. -/
def bigFuel (l : List Char) : Nat := 200 + 40 * l.length

/-- Attempt a match anchored at position `s`. -/
def searchAt (re : RE) (text : List Char) (s : Nat) : Option (Nat × Caps) :=
  mrun (bigFuel text) re (text.take s).reverse (text.drop s) s []
    (fun _ _ pos caps => some (pos, caps))

/-- Leftmost match at or after position `s` (`tries` bounds the scan). -/
def searchFrom (re : RE) (text : List Char) : Nat → Nat → Option (Nat × Nat × Caps)
  | _, 0 => none
  | s, tries + 1 =>
    match searchAt re text s with
    | some (e, caps) => some (s, e, caps)
    | none => searchFrom re text (s + 1) tries

/-- Python `pattern.search(text)`. -/
def reSearch (re : RE) (text : List Char) : Option (Nat × Nat × Caps) :=
  searchFrom re text 0 (text.length + 1)

/-- Python `pattern.fullmatch(text)`. -/
def reFullmatch (re : RE) (text : List Char) : Option Caps :=
  (mrun (bigFuel text) re [] text 0 []
    (fun _ rest pos caps => if rest.isEmpty then some (pos, caps) else none)).map Prod.snd

/-- The span of a captured group (most recent capture). -/
def capGet (caps : Caps) (n : Nat) : Option (Nat × Nat) :=
  (caps.find? (fun c => c.1 == n)).map (fun c => c.2)

/-- The text of a captured group. -/
def capStr (text : List Char) (caps : Caps) (n : Nat) : Option (List Char) :=
  (capGet caps n).map fun p => Py.slice text p.1 p.2

/-- Worker of `subAll` (scan, replace, continue past the match). -/
def subAllGo (re : RE) (f : List Char → Nat → Nat → Caps → List Char) (text : List Char) :
    Nat → Nat → List Char → List Char
  | pos, 0, acc => acc ++ text.drop pos
  | pos, tries + 1, acc =>
    match searchFrom re text pos (text.length + 1 - pos) with
    | none => acc ++ text.drop pos
    | some (s, e, caps) =>
      subAllGo re f text (Nat.max e (s + 1)) tries (acc ++ Py.slice text pos s ++ f text s e caps)

/-- Python `pattern.sub(f, text)` (all matches of `_pattern` are non-empty,
so the scan always advances). -/
def subAll (re : RE) (f : List Char → Nat → Nat → Caps → List Char)
    (text : List Char) : List Char :=
  subAllGo re f text 0 (text.length + 1) []

/-- Repeated leftmost matching, Python `pattern.findall(text)` (returning
whole-match slices). -/
def findAllGo (re : RE) (text : List Char) : Nat → Nat → List (List Char)
  | _, 0 => []
  | pos, tries + 1 =>
    match searchFrom re text pos (text.length + 1 - pos) with
    | none => []
    | some (s, e, _) => Py.slice text s e :: findAllGo re text (Nat.max e (s + 1)) tries

/-- Python `pattern.findall(text)`. -/
def findAll (re : RE) (text : List Char) : List (List Char) :=
  findAllGo re text 0 (text.length + 1)

/-- Character class membership. -/
def cin (s : String) : Char → Bool := fun c => s.data.contains c

/-- `UNIT_MAPPING`: Chinese unit → mapped unit (`none` = keep as is). -/
def UNIT_MAPPING : List (List Char × Option (List Char)) :=
  [("个".data, none), ("只".data, none), ("分".data, none), ("万".data, none),
   ("亿".data, none), ("秒".data, none), ("年".data, none), ("月".data, none),
   ("日".data, none), ("天".data, none), ("时".data, none), ("钟".data, none),
   ("人".data, none), ("层".data, none), ("楼".data, none), ("倍".data, none),
   ("块".data, none), ("次".data, none),
   ("克".data, some "g".data), ("千克".data, some "kg".data),
   ("米".data, some "米".data), ("千米".data, some "千米".data),
   ("千米每小时".data, some "km/h".data)]

/-- `UNIT_MAPPING.get(u)`. -/
def unitMapLookup (u : List Char) : Option (Option (List Char)) :=
  (UNIT_MAPPING.find? (fun p => p.1 == u)).map Prod.snd

/-- `sorted(UNIT_MAPPING.keys(), key=len, reverse=True)` (stable). -/
def sortedUnits : List (List Char) :=
  Py.sortOrd (fun y x => decide (x.length < y.length)) (UNIT_MAPPING.map Prod.fst)

/-- `'|'.join(...)`. -/
def joinBar : List (List Char) → List Char
  | [] => []
  | [u] => u
  | u :: us => u ++ '|' :: joinBar us

/-- `COMMON_UNITS`: the units joined with `|` (a string in the source, used
both inside regexes and — character by character — in
`_split_consecutive_value`). -/
def COMMON_UNITS_STR : List Char := joinBar sortedUnits

/-- Left-preferring alternation over a list. -/
def altList : List RE → RE
  | [] => .cls fun _ => false
  | [r] => r
  | r :: rs => .alt r (altList rs)

/-- The `COMMON_UNITS` alternation as a regex. -/
def unitsRE : RE := altList (sortedUnits.map RE.lit)

/-- `NUM_MAPPER`. -/
def NUM_MAPPER : List (Char × Char) :=
  [('零', '0'), ('一', '1'), ('幺', '1'), ('二', '2'), ('两', '2'), ('三', '3'),
   ('四', '4'), ('五', '5'), ('六', '6'), ('七', '7'), ('八', '8'), ('九', '9'),
   ('点', '.')]

/-- `NUM_MAPPER[c]` (raises `KeyError` → `none`). -/
def numMap (c : Char) : Option Char :=
  (NUM_MAPPER.find? (fun p => p.1 == c)).map Prod.snd

/-- `VALUE_MAPPER`. -/
def VALUE_MAPPER : List (Char × Nat) :=
  [('零', 0), ('一', 1), ('二', 2), ('两', 2), ('三', 3), ('四', 4), ('五', 5),
   ('六', 6), ('七', 7), ('八', 8), ('九', 9), ('十', 10), ('百', 100),
   ('千', 1000), ('万', 10000), ('亿', 100000000)]

/-- `VALUE_MAPPER[c]` (raises `KeyError` → `none`). -/
def valueMap (c : Char) : Option Nat :=
  (VALUE_MAPPER.find? (fun p => p.1 == c)).map Prod.snd

/-- `_chinese_digit_to_num`: `VALUE_MAPPER.get(char, 0)`. -/
def chineseDigitToNum (c : Char) : Nat := (valueMap c).getD 0

/-- `IDIOMS`: the idiom/saying blacklist. -/
def IDIOMS : List (List Char) :=
  ["正经八百", "五零二落", "五零四散",
   "五十步笑百步", "乌七八糟", "污七八糟", "四百四病", "思绪万千",
   "十有八九", "十之八九", "三十而立", "三十六策", "三十六计", "三十六行",
   "三五成群", "三百六十行", "三六九等",
   "七老八十", "七零八落", "七零八碎", "七七八八", "乱七八遭", "乱七八糟",
   "略知一二", "零零星星", "零七八碎",
   "九九归一", "二三其德", "二三其意", "无银三百两", "八九不离十",
   "百分之百", "年三十", "烂七八糟", "一点一滴", "路易十六", "九三学社",
   "五四运动", "入木三分", "三十六计",
   "九九八十一", "三七二十一",
   "十二五", "十三五", "十四五", "十五五", "十六五", "十七五", "十八五"
  ].map String.data

/-! ### The candidate pattern `_pattern` ((?ix), groups 1–8) -/

/-- `[几零幺一二两三四五六七八九十百千万点比]`. -/
def baseCls : Char → Bool := cin "几零幺一二两三四五六七八九十百千万点比"

/-- `[零幺一二两三四五六七八九十百千万亿点比]`. -/
def extraCls : Char → Bool := cin "零幺一二两三四五六七八九十百千万亿点比"

/-- `[零一二三四五六七八九十]` (before a literal space). -/
def digitsTenCls : Char → Bool := cin "零一二三四五六七八九十"

/-- `[一二两三四五六七八九十]` (lookbehind digit class). -/
def lookDigits : Char → Bool := cin "一二两三四五六七八九十"

/-- `[a-z]` under `(?i)`. -/
def asciiAlpha : Char → Bool := Char.isAlpha

/-- `[a-zA-Z年月日号]`. -/
def alphaYmdhCls : Char → Bool := fun c => c.isAlpha || cin "年月日号" c

/-- Group 3 body: the repeated head classes of the candidate pattern. -/
def itnBase : RE :=
  RE.plus (.grp 3 (altList [
    .cls baseCls,
    .seq (.cls digitsTenCls) (.cls (fun c => c = ' ')),
    .seq (.lookb [lookDigits]) (.cls (cin "年月日号分")),
    .grp 4 (.lit "分之".data)]))

/-- Group 5: the optional unit/letter suffix after a digit. -/
def itnGrp5 : RE :=
  .opt (.grp 5 (altList [
    .seq (.lookb [lookDigits]) (.grp 6 (.alt (.cls alphaYmdhCls) unitsRE)),
    .seq (.lookb [lookDigits, Char.isWhitespace]) (.cls asciiAlpha)]))

/-- `(?(1)|(?(5)|(...))+)`: the conditional tail. -/
def itnTail : RE :=
  .cond 1 .eps (RE.plus (.cond 5 .eps (.grp 7 (.alt (.cls extraCls) (.grp 8 (.lit "分之".data))))))

/-- `_pattern`: the high-recall candidate scanner. -/
def itnPattern : RE :=
  .seq (.opt (.grp 1 (.seq (.cls asciiAlpha) (.star (.cls Char.isWhitespace)))))
    (.grp 2 (.seq itnBase (.seq itnGrp5 itnTail)))

/-! ### Classifier patterns -/

/-- `[零幺一二三四五六七八九]`. -/
def pureCls : Char → Bool := cin "零幺一二三四五六七八九"

/-- `[零一二三四五六七八九]` (decimal digits). -/
def decCls : Char → Bool := cin "零一二三四五六七八九"

/-- `[一二三四五六七八九]`. -/
def d19Cls : Char → Bool := cin "一二三四五六七八九"

/-- `[二三四五六七八九]`. -/
def d29Cls : Char → Bool := cin "二三四五六七八九"

/-- `[一二两三四五六七八九十]`. -/
def vDigitCls : Char → Bool := cin "一二两三四五六七八九十"

/-- `[十百千万]`. -/
def powCls : Char → Bool := cin "十百千万"

/-- `[一二三四五六七八九十]`. -/
def dDigCls : Char → Bool := cin "一二三四五六七八九十"

/-- `[零一二三四五六七八九十]`. -/
def tDigCls : Char → Bool := cin "零一二三四五六七八九十"

/-- `[零一二三四五六七八九十百千万]`. -/
def pctCls : Char → Bool := cin "零一二三四五六七八九十百千万"

/-- `_pure_num`. -/
def pureNumRE : RE :=
  .seq (RE.plus (.cls pureCls))
    (.seq (.star (.grp 1 (.seq (.lit "点".data) (RE.plus (.cls pureCls)))))
      (.seq (.star (.cls (fun c => c = ' ')))
        (.opt (.grp 2 (.alt (.cls asciiAlpha) unitsRE)))))

/-- `_value_num`. -/
def valueNumRE : RE :=
  .seq (.opt (.lit "十".data))
    (.seq (.star (.grp 1 (.seq (.opt (.lit "零".data))
        (.seq (.cls vDigitCls) (.seq (.cls powCls) (.opt (.cls powCls)))))))
      (.seq (.opt (.lit "零".data))
        (.seq (.opt (.lit "十".data))
          (.seq (.opt (.cls d19Cls))
            (.seq (.opt (.grp 2 (.seq (.lit "点".data) (RE.plus (.cls decCls)))))
              (.seq (.star (.cls (fun c => c = ' ')))
                (.opt (.grp 3 (.alt (.cls asciiAlpha) unitsRE)))))))))

/-- `_consecutive_tens` (`^...$` anchored, so `.match` ≡ fullmatch). -/
def consecutiveTensRE : RE :=
  .seq (.grp 1 (RE.plus (.seq (.lit "十".data) (.cls d19Cls)))) (.opt (.grp 2 unitsRE))

/-- `_consecutive_hundreds`. -/
def consecutiveHundredsRE : RE :=
  .seq (.grp 1 (RE.plus (.seq (.cls d19Cls)
      (.seq (.lit "百".data) (.seq (.opt (.lit "零".data)) (.cls d19Cls))))))
    (.opt (.grp 2 unitsRE))

/-- `_percent_value`. -/
def percentRE : RE :=
  .seq (.nlookb [d19Cls])
    (.seq (.grp 1 (.lit "百分之".data))
      (.seq (RE.plus (.cls pctCls))
        (.seq (.opt (.grp 2 (.lit "点".data)))
          (.cond 2 (RE.plus (.cls decCls)) .eps))))

/-- `_fraction_value`. -/
def fractionRE : RE :=
  .seq (.grp 1 (.seq (RE.plus (.cls pctCls))
      (.seq (.opt (.grp 2 (.lit "点".data))) (.cond 2 (RE.plus (.cls decCls)) .eps))))
    (.seq (.lit "分之".data)
      (.grp 3 (.seq (RE.plus (.cls pctCls))
        (.seq (.opt (.grp 4 (.lit "点".data))) (.cond 4 (RE.plus (.cls decCls)) .eps)))))

/-- `_ratio_value`. -/
def ratioRE : RE :=
  .seq (.grp 1 (.seq (RE.plus (.cls pctCls))
      (.seq (.opt (.grp 2 (.lit "点".data))) (.cond 2 (RE.plus (.cls decCls)) .eps))))
    (.seq (.lit "比".data)
      (.grp 3 (.seq (RE.plus (.cls pctCls))
        (.seq (.opt (.grp 4 (.lit "点".data))) (.cond 4 (RE.plus (.cls decCls)) .eps)))))

/-- `_time_value`. -/
def timeRE : RE :=
  .seq (RE.plus (.cls (cin "零一二两三四五六七八九十")))
    (.seq (.lit "点".data)
      (.seq (.grp 1 (.seq (RE.plus (.cls tDigCls)) (.lit "分".data)))
        (.opt (.grp 2 (.seq (RE.plus (.cls tDigCls)) (.lit "秒".data))))))

/-- `_date_value`. -/
def dateRE : RE :=
  .seq (.opt (.grp 1 (.seq (RE.plus (.cls tDigCls)) (.lit "年".data))))
    (.seq (.opt (.grp 2 (.seq (RE.plus (.cls dDigCls)) (.lit "月".data))))
      (.opt (.grp 3 (.seq (RE.plus (.cls dDigCls)) (.cls (cin "日号"))))))

/-- `_unit_suffix_pattern`: `(COMMON_UNITS|[a-zA-Z]+)$`. -/
def unitSuffixRE : RE := .seq (.grp 1 (.alt unitsRE (RE.plus (.cls asciiAlpha)))) .eos

/-- The `(COMMON_UNITS)$` pattern of `_strip_unit`. -/
def unitOnlySuffixRE : RE := .seq (.grp 1 unitsRE) .eos

/-- The `[a-zA-Z]+$` fallback of `_strip_unit`. -/
def lettersSuffixRE : RE := .seq (.grp 1 (RE.plus (.cls asciiAlpha))) .eos

/-- `_range_pattern_1`. -/
def rangePat1 : RE :=
  .seq (.grp 1 (.cls d29Cls))
    (.seq (.grp 2 (.cls d29Cls))
      (.seq (.grp 3 (.cls (cin "十百千万亿"))) (.opt (.grp 4 (.cls (cin "万千百亿"))))))

/-- `_range_pattern_2`. -/
def rangePat2 : RE :=
  .seq (.grp 1 (.alt (.lit "十".data) (.seq (RE.plus (.cls dDigCls)) (.cls powCls))))
    (.seq (.grp 2 (.cls d19Cls))
      (.seq (.grp 3 (.cls d19Cls)) (.opt (.grp 4 (.cls (cin "万千亿"))))))

/-- `_range_pattern_3` (`^...$` anchored). -/
def rangePat3 : RE := .seq (.grp 1 (.cls d19Cls)) (.grp 2 (.cls d19Cls))

/-- The big alternation of `_is_range_expression` (with `(?<!点)`). -/
def rangeExprRE : RE :=
  .seq (.nlookb [fun c => c = '点'])
    (altList [
      .seq (.cls d29Cls) (.seq (.cls d29Cls)
        (.seq (.alt (.lit "十".data) (.cls (cin "百千万亿"))) (.opt unitsRE))),
      .seq (.opt (.cls d19Cls)) (.seq (.lit "十".data)
        (.seq (.cls d19Cls) (.seq (.cls d19Cls) (.alt (.cls (cin "万千亿")) (.opt unitsRE))))),
      .seq (.cls d19Cls) (.seq (.cls (cin "百千"))
        (.seq (.cls d29Cls) (.seq (.cls d29Cls) (.lit "十".data)))),
      .seq (RE.plus (.cls dDigCls)) (.seq (.cls (cin "万千百"))
        (.seq (.cls d19Cls) (.seq (.cls d19Cls) (.opt unitsRE))))])

/-- `_is_range_expression`. -/
def isRangeExpression (text : List Char) : Bool := (reSearch rangeExprRE text).isSome

/-! ### Helpers and conversions -/

/-- `_strip_trailing_unit`. -/
def stripTrailingUnit (text : List Char) : List Char :=
  match reSearch unitSuffixRE text with
  | some r => text.take r.1
  | none => text

/-- `_strip_unit`: strip a trailing unit (mapped) or letter run. -/
def stripUnit (original : List Char) : List Char × List Char :=
  let p :=
    match reSearch unitOnlySuffixRE original with
    | some r =>
      let unitCn := original.drop r.1
      let unit :=
        match unitMapLookup unitCn with
        | some (some m) => m
        | _ => unitCn
      (original.take r.1, unit)
    | none => (original, ([] : List Char))
  let q :=
    if p.2 = [] ∧ p.1 ≠ [] then
      match reSearch lettersSuffixRE p.1 with
      | some r => (p.1.take r.1, p.1.drop r.1)
      | none => p
    else p
  (Py.strip q.1, q.2)

/-- `_convert_pure_num` (`strict` keeps a lone `一` unconverted). -/
def convertPureNum (original : List Char) (strict : Bool) : Option (List Char) :=
  let p := stripUnit original
  if p.1 = "一".data ∧ ¬ strict then some original
  else do
    let converted ← p.1.mapM numMap
    some (converted ++ p.2)

/-- The accumulator loop of `_convert_value_num` over the integer part:
state `(value, temp, base)`.  `十` doubles up `temp` (or seeds 10), `零`
resets `base`, a digit adds into `temp`, `万` flushes and scales `value`,
`百`/`千` fold `temp` multiplied; any other character (e.g. `亿`) is
ignored. -/
def valueNumLoop : List Char → Nat × Nat × Nat → Nat × Nat × Nat
  | [], s => s
  | c :: cs, (value, temp, base) =>
    valueNumLoop cs
      (if c = '十' then (value, if temp = 0 then 10 else 10 * temp, 1)
       else if c = '零' then (value, temp, 1)
       else if "一二两三四五六七八九".data.contains c then
         (value, temp + (valueMap c).getD 0, base)
       else if c = '万' then ((value + temp) * 10000, 0, 1000)
       else if c = '百' ∨ c = '千' then
         (value + temp * (valueMap c).getD 0, 0, (valueMap c).getD 0 / 10)
       else (value, temp, base))

/-- `value += temp * base` at the end of the loop. -/
def valueNumEnd (s : Nat × Nat × Nat) : Nat := s.1 + s.2.1 * s.2.2

/-- The integer computed by the accumulator on the integer part. -/
def valueNumOf (intPart : List Char) : Nat :=
  valueNumEnd (valueNumLoop intPart (0, 0, 1))

/-- `_convert_value_num`. -/
def convertValueNum (original : List Char) : Option (List Char) := do
  let p := stripUnit original
  let stripped := if p.1.contains '点' then p.1 else p.1 ++ "点".data
  match Py.splitChar '点' stripped with
  | [intPart, decimalPart] =>
    if intPart = [] then some original
    else do
      let final := (Nat.repr (valueNumOf intPart)).data
      let decimalStr ← convertPureNum decimalPart true
      let final := if decimalStr ≠ [] then final ++ '.' :: decimalStr else final
      some (final ++ p.2)
  | _ => none

/-- `_convert_fraction_value` (note the reversed order). -/
def convertFractionValue (original : List Char) : Option (List Char) :=
  match Py.splitSub "分之".data original with
  | [denominator, numerator] => do
    let n ← convertValueNum numerator
    let d ← convertValueNum denominator
    some (n ++ '/' :: d)
  | _ => none

/-- `_convert_percent_value` (drops the three chars `百分之`). -/
def convertPercentValue (original : List Char) : Option (List Char) := do
  let v ← convertValueNum (original.drop 3)
  some (v ++ "%".data)

/-- `_convert_ratio_value`. -/
def convertRatioValue (original : List Char) : Option (List Char) :=
  match Py.splitChar '比' original with
  | [n1, n2] => do
    let a ← convertValueNum n1
    let b ← convertValueNum n2
    some (a ++ ':' :: b)
  | _ => none

/-- `_convert_time_value`. -/
def convertTimeValue (original : List Char) : Option (List Char) := do
  let res := (Py.splitAnyChar "点分秒".data original).filter (· ≠ [])
  match res with
  | r0 :: r1 :: rest => do
    let hour ← convertValueNum r0
    let minute ← convertValueNum r1
    let f2 := Py.zfill hour 2 ++ ':' :: Py.zfill minute 2
    let f3 ←
      match rest with
      | r2 :: _ => do
        let second ← convertValueNum r2
        pure (f2 ++ ':' :: Py.zfill second 2)
      | [] => pure f2
    match rest with
    | _ :: r3 :: _ => do
      let frac ← convertPureNum r3 false
      pure (f3 ++ '.' :: frac)
    | _ => pure f3
  | _ => none

/-- `_convert_date_value`. -/
def convertDateValue (original : List Char) : Option (List Char) := do
  let py ←
    if original.contains '年' then
      match Py.splitChar '年' original with
      | [y, r] => do
        let ys ← convertPureNum y false
        pure (ys ++ "年".data, r)
      | _ => none
    else pure (([] : List Char), original)
  let pm ←
    if py.2.contains '月' then
      match Py.splitChar '月' py.2 with
      | [m, r] => do
        let ms ← convertValueNum m
        pure (py.1 ++ ms ++ "月".data, r)
      | _ => none
    else pure py
  if pm.2.contains '日' then
    match Py.splitChar '日' pm.2 with
    | [d, _] => do
      let ds ← convertValueNum d
      pure (pm.1 ++ ds ++ "日".data)
    | _ => none
  else if pm.2.contains '号' then
    match Py.splitChar '号' pm.2 with
    | [d, _] => do
      let ds ← convertValueNum d
      pure (pm.1 ++ ds ++ "号".data)
    | _ => none
  else pure pm.1

/-- `_parse_tens`. -/
def parseTens (tens : List Char) : Nat :=
  if tens = "十".data then 10 else chineseDigitToNum (tens.headD ' ') * 10

/-- `_convert_range_pattern_1`. -/
def convertRangePattern1 (g1 g2 g3 : List Char) (g4 : Option (List Char)) :
    Option (List Char) :=
  let suffixUnit := g4.getD []
  let v1 := chineseDigitToNum (g1.headD ' ')
  let v2 := chineseDigitToNum (g2.headD ' ')
  if g3 = "十".data then
    some ((Nat.repr (v1 * 10)).data ++ '~' :: (Nat.repr (v2 * 10)).data ++ suffixUnit)
  else if g3 = "万".data ∨ g3 = "亿".data then
    some ((Nat.repr v1).data ++ '~' :: (Nat.repr v2).data ++ g3 ++ suffixUnit)
  else if g3 = "千".data ∧ suffixUnit ≠ [] then
    some ((Nat.repr v1).data ++ '~' :: (Nat.repr v2).data ++ g3 ++ suffixUnit)
  else do
    let m ← valueMap (g3.headD ' ')
    some ((Nat.repr (v1 * m)).data ++ '~' :: (Nat.repr (v2 * m)).data ++ suffixUnit)

/-- `_convert_range_pattern_2`. -/
def convertRangePattern2 (basePart d1 d2 : List Char) (g4 : Option (List Char)) :
    Option (List Char) := do
  let unit := g4.getD []
  let lastChar ← basePart.getLast?
  let baseValue :=
    if lastChar = '十' then
      if basePart.length = 1 then 10 else chineseDigitToNum (basePart.headD ' ') * 10
    else if (valueMap lastChar).isSome then
      let numPart := basePart.dropLast
      if numPart ≠ [] then chineseDigitToNum (numPart.headD ' ') * (valueMap lastChar).getD 0
      else (valueMap lastChar).getD 0
    else parseTens basePart
  let num1 := chineseDigitToNum (d1.headD ' ')
  let num2 := chineseDigitToNum (d2.headD ' ')
  let multiplier := ((valueMap lastChar).getD 10) / 10
  some ((Nat.repr (baseValue + num1 * multiplier)).data ++ '~'
    :: (Nat.repr (baseValue + num2 * multiplier)).data ++ unit)

/-- `_convert_range_pattern_3`. -/
def convertRangePattern3 (g1 g2 : List Char) : List Char :=
  (Nat.repr (chineseDigitToNum (g1.headD ' '))).data ++ '~'
    :: (Nat.repr (chineseDigitToNum (g2.headD ' '))).data

/-- The unit-stripping loop at the top of `_convert_range_expression`
(numeric units are skipped). -/
def rangeStripLoop (text : List Char) : List (List Char) → List Char × List Char
  | [] => (text, [])
  | u :: us =>
    if ["万".data, "亿".data, "千".data, "百".data, "十".data].contains u then
      rangeStripLoop text us
    else if Py.endswith text u then
      (text.take (text.length - u.length),
       match unitMapLookup u with
       | some (some m) => m
       | _ => u)
    else rangeStripLoop text us

/-- `_convert_range_expression`. -/
def convertRangeExpression (text : List Char) : Option (List Char) :=
  let p := rangeStripLoop text sortedUnits
  let strippedText := p.1
  let mappedUnit := p.2
  match reSearch rangePat2 strippedText with
  | some (_, _, caps) => do
    let r ← convertRangePattern2 ((capStr strippedText caps 1).getD [])
      ((capStr strippedText caps 2).getD []) ((capStr strippedText caps 3).getD [])
      (capStr strippedText caps 4)
    some (r ++ mappedUnit)
  | none =>
    match reSearch rangePat1 strippedText with
    | some (_, _, caps) => do
      let r ← convertRangePattern1 ((capStr strippedText caps 1).getD [])
        ((capStr strippedText caps 2).getD []) ((capStr strippedText caps 3).getD [])
        (capStr strippedText caps 4)
      some (r ++ mappedUnit)
    | none =>
      match reFullmatch rangePat3 strippedText with
      | some caps =>
        some (convertRangePattern3 ((capStr strippedText caps 1).getD [])
          ((capStr strippedText caps 2).getD []) ++ mappedUnit)
      | none => some text

/-- `_is_consecutive_value` (`.match` of `^...$` patterns ≡ fullmatch). -/
def isConsecutiveValue (text : List Char) : Bool :=
  (reFullmatch consecutiveTensRE text).isSome || (reFullmatch consecutiveHundredsRE text).isSome

/-- `' '.join`. -/
def joinSpace : List (List Char) → List Char
  | [] => []
  | [x] => x
  | x :: xs => x ++ ' ' :: joinSpace xs

/-- `_split_consecutive_value`.  The unit strip iterates over the characters
of the joined `COMMON_UNITS` string (including `|`), exactly as the source
does. -/
def splitConsecutiveValue (text : List Char) : Option (List Char) :=
  let p :=
    match COMMON_UNITS_STR.find? (fun c => Py.endswith text [c]) with
    | some c => (text.dropLast, [c])
    | none => (text, ([] : List Char))
  if (reFullmatch consecutiveTensRE (p.1 ++ p.2)).isSome then do
    let parts := findAll (.seq (.lit "十".data) (.cls d19Cls)) p.1
    let nums ← parts.mapM convertValueNum
    some (joinSpace nums ++ p.2)
  else if (reFullmatch consecutiveHundredsRE (p.1 ++ p.2)).isSome then do
    let parts := findAll (.seq (.cls d19Cls)
      (.seq (.lit "百".data) (.seq (.opt (.lit "零".data)) (.cls d19Cls)))) p.1
    let nums ← parts.mapM convertValueNum
    some (joinSpace nums ++ p.2)
  else some (p.1 ++ p.2)

/-! ### The main replacement `_replace` and `convert` -/

/-- The idiom guard: `any(string.find(idiom) in range(l_pos, r_pos))` —
note `str.find` returns only the FIRST occurrence. -/
def idiomInRange (string : List Char) (lpos rpos : Nat) : Bool :=
  IDIOMS.any fun idm =>
    match Py.find string idm with
    | some i => decide (lpos ≤ i ∧ i < rpos)
    | none => false

/-- The ordered classifier chain of `_replace` (`none` models an exception,
which `_replace` turns back into the unchanged candidate). -/
def itnBranch (string : List Char) (lpos rpos : Nat) (orig : List Char) :
    Option (List Char) :=
  if idiomInRange string lpos rpos then some orig
  else if orig.contains '几' then some orig
  else if isRangeExpression orig then convertRangeExpression orig
  else if (reFullmatch timeRE orig).isSome then convertTimeValue orig
  else if (reFullmatch pureNumRE (stripTrailingUnit orig)).isSome then convertPureNum orig false
  else if isConsecutiveValue orig then splitConsecutiveValue orig
  else if (reFullmatch valueNumRE (stripTrailingUnit orig)).isSome then convertValueNum orig
  else if (reFullmatch percentRE orig).isSome then convertPercentValue orig
  else if (reFullmatch fractionRE orig).isSome then convertFractionValue orig
  else if (reFullmatch ratioRE orig).isSome then convertRatioValue orig
  else if (reFullmatch dateRE orig).isSome then convertDateValue orig
  else some orig

/-- `_replace`: compute the window `[max(l2-2,0), r2)` from group 2's span,
run the classifier chain, and re-attach the optional letter head (group 1).
Natural subtraction models `max(l_pos-2, 0)`. -/
def itnReplace (string : List Char) (s e : Nat) (caps : Caps) : List Char :=
  let g2 := (capGet caps 2).getD (s, e)
  let lpos := g2.1 - 2
  let orig := Py.slice string g2.1 g2.2
  let head := (capGet caps 1).map fun p => Py.slice string p.1 p.2
  let final := (itnBranch string lpos g2.2 orig).getD orig
  match head with
  | some h => if h ≠ [] then h ++ final else final
  | none => final

/-- `ChineseITN.convert` with the constructor default `erhua_remove=False`:
`_pattern.sub(_replace, text)`. -/
def itnConvert (text : List Char) : List Char :=
  if text = [] then text
  else subAll itnPattern itnReplace text

end ITN


/-! ## Theorems -/

namespace StreamMerger

/-- The new buffer after a `merge` call is the old buffer followed by the
returned delta, in every branch of the source. -/
theorem merge_snd_eq (cfg : Cfg) (buf t : List Char) :
    (merge cfg buf t).2 = buf ++ (merge cfg buf t).1 := by
  unfold merge
  by_cases h1 : t = []
  · simp [h1]
  · by_cases h2 : buf = []
    · simp [h1, h2]
    · simp only [h1, h2, if_neg, if_false]
      split <;> simp

/-- Generalised trace invariant: buffers form a prefix chain and the final
buffer is the starting buffer followed by all deltas. -/
theorem mergeTrace_spec (cfg : Cfg) (texts : List (List Char)) : ∀ buf : List Char,
    List.Chain' (· <+: ·) (buf :: (mergeTrace cfg buf texts).map Prod.snd) ∧
    ((mergeTrace cfg buf texts).map Prod.snd).getLastD buf
      = buf ++ ((mergeTrace cfg buf texts).map Prod.fst).flatten := by
  induction texts with
  | nil => intro buf; simp [mergeTrace]
  | cons t ts ih =>
    intro buf
    have hsnd := merge_snd_eq cfg buf t
    obtain ⟨ihc, ihl⟩ := ih (merge cfg buf t).2
    constructor
    · refine List.Chain'.cons ?_ ihc
      exact ⟨(merge cfg buf t).1, hsnd.symm⟩
    · simp only [mergeTrace, List.map_cons, List.getLastD_cons, List.flatten_cons]
      rw [ihl, hsnd, List.append_assoc]

end StreamMerger

namespace StreamMerger

/-- Claim C3: for every sequence of `StreamTextMerger.merge` calls starting
from an empty buffer, the buffer never shortens (each call's buffer extends
the previous buffer as a prefix), and the concatenation of the returned
deltas, in order, equals the final buffer. -/
theorem claim_c3_merge_monotone_deltas (cfg : Cfg) (texts : List (List Char)) :
    List.Chain' (· <+: ·) ([] :: (mergeTrace cfg [] texts).map Prod.snd) ∧
    ((mergeTrace cfg [] texts).map Prod.fst).flatten
      = ((mergeTrace cfg [] texts).map Prod.snd).getLastD [] := by
  obtain ⟨h1, h2⟩ := mergeTrace_spec cfg texts []
  exact ⟨h1, by rw [h2, List.nil_append]⟩

/-- The phase-1 loop of `_find_overlap` returns the largest matching length:
if `L ∈ [1, k]` matches exactly and no larger length up to `k` matches, the
loop run from `k` yields `L`. -/
theorem exactLoop_eq_some (old new : List Char) (L : Nat) (hL1 : 1 ≤ L) :
    ∀ k, L ≤ k →
      Py.takeRight old L = new.take L →
      (∀ M, L < M → M ≤ k → Py.takeRight old M ≠ new.take M) →
      exactLoop old new k = some L := by
  intro k
  induction k with
  | zero => intro hk; omega
  | succ n ih =>
    intro hk hmatch hmax
    by_cases h : L = n + 1
    · subst h
      simp only [exactLoop, if_pos hmatch]
    · have hne : Py.takeRight old (n + 1) ≠ new.take (n + 1) :=
        hmax (n + 1) (by omega) (by omega)
      simp only [exactLoop, if_neg hne]
      exact ih (by omega) hmatch (fun M h1 h2 => hmax M h1 (by omega))

/-- Claim C4 (amended): with `m = min(|old|, |new|, max_overlap_check)`,
provided `m ≥ 2`, `_find_overlap` returns `(L, exact := true)` for the
largest `L` in `min(m, overlap_chars) .. 1` such that `old[-L:] == new[:L]`.
When `m < 2` the function returns `(0, false)` even if a length-1 exact
overlap exists. -/
theorem claim_c4_amended_largest_exact_overlap (cfg : Cfg) (old new : List Char) (L : Nat)
    (hmc : 2 ≤ Nat.min (Nat.min old.length new.length) cfg.maxOverlapCheck)
    (hL1 : 1 ≤ L)
    (hL2 : L ≤ Nat.min (Nat.min (Nat.min old.length new.length) cfg.maxOverlapCheck)
        cfg.overlapChars)
    (hmatch : Py.takeRight old L = new.take L)
    (hmax : ∀ M, L < M →
        M ≤ Nat.min (Nat.min (Nat.min old.length new.length) cfg.maxOverlapCheck)
          cfg.overlapChars →
        Py.takeRight old M ≠ new.take M) :
    findOverlap cfg old new = (L, true) := by
  simp only [findOverlap]
  rw [if_neg (by omega)]
  rw [exactLoop_eq_some old new L hL1 _ hL2 hmatch hmax]

/-- Witness for the amended C4 theorem at a concrete input:
`old = "xab"`, `new = "aby"`, default configuration, largest exact overlap 2. -/
theorem claim_c4_amended_witness :
    findOverlap {} "xab".data "aby".data = (2, true) :=
  claim_c4_amended_largest_exact_overlap {} "xab".data "aby".data 2
    (by decide) (by decide) (by decide) (by decide)
    (by
      intro M h1 h2
      have h3 : M ≤ 3 := le_trans h2 (by decide)
      have h4 : M = 3 := by omega
      subst h4
      decide)

/-- Claim C4 counterexample: with the default configuration, `old = "a"`,
`new = "ab"` has a (largest) exact overlap of length 1, but `_find_overlap`
returns `(0, false)` because of the `max_check < 2` early return, refuting
"an exact overlap of length 1 is detected whenever it is the longest exact
overlap". -/
theorem claim_c4_counterexample :
    findOverlap {} "a".data "ab".data = (0, false) ∧
    Py.takeRight "a".data 1 = "ab".data.take 1 := by decide

end StreamMerger

namespace Rectify

/-- The fuelled substring splitter does not depend on the fuel once the fuel
covers the input length. -/
theorem splitSubF_fuel (sep : List Char) :
    ∀ fuel l fuel', l.length ≤ fuel → l.length ≤ fuel' →
      Py.splitSubF sep fuel l = Py.splitSubF sep fuel' l := by
  intro fuel
  induction fuel with
  | zero =>
    intro l fuel' h1 _
    have hl : l = [] := List.eq_nil_of_length_eq_zero (by omega)
    subst hl
    cases fuel' <;> rfl
  | succ f ih =>
    intro l fuel' h1 h2
    cases l with
    | nil => cases fuel' <;> rfl
    | cons c cs =>
      cases fuel' with
      | zero => simp at h2
      | succ f' =>
        simp only [Py.splitSubF]
        by_cases hp : sep.isPrefixOf (c :: cs) ∧ sep ≠ []
        · rw [if_pos hp, if_pos hp]
          have hsep : 1 ≤ sep.length := by
            cases sep
            · exact absurd rfl hp.2
            · simp
          have hlen : ((c :: cs).drop sep.length).length ≤ f := by
            simp only [List.length_drop, List.length_cons]
            simp only [List.length_cons] at h1
            omega
          have hlen' : ((c :: cs).drop sep.length).length ≤ f' := by
            simp only [List.length_drop, List.length_cons]
            simp only [List.length_cons] at h2
            omega
          rw [ih _ f' hlen hlen']
        · rw [if_neg hp, if_neg hp]
          have hcs : cs.length ≤ f := by simp only [List.length_cons] at h1; omega
          have hcs' : cs.length ≤ f' := by simp only [List.length_cons] at h2; omega
          rw [ih cs f' hcs hcs']

theorem threeDashes_eq : threeDashes = ['-', '-', '-'] := rfl

/-- A block without hyphens is returned whole by `split('---')`. -/
theorem splitSub_no_dash (b : List Char) (hb : '-' ∉ b) :
    Py.splitSub threeDashes b = [b] := by
  induction b with
  | nil => rfl
  | cons c cs ih =>
    have hc : c ≠ '-' := fun h => hb (h ▸ List.mem_cons_self _ _)
    have hcs : '-' ∉ cs := fun h => hb (List.mem_cons_of_mem _ h)
    show Py.splitSubF _ (cs.length + 1) (c :: cs) = [c :: cs]
    simp only [Py.splitSubF]
    rw [if_neg ?hneg]
    case hneg =>
      rintro ⟨hpre, -⟩
      obtain ⟨t, ht⟩ := List.isPrefixOf_iff_prefix.mp hpre
      rw [threeDashes_eq] at ht
      simp only [List.cons_append] at ht
      exact hc (List.cons.injEq .. ▸ ht).1.symm
    rw [show Py.splitSubF threeDashes cs.length cs = Py.splitSub threeDashes cs from rfl,
      ih hcs]

/-- `split('---')` splits exactly at an inserted `---` occurrence when the
leading block carries no hyphen. -/
theorem splitSub_sep_append (rest : List Char) :
    ∀ b : List Char, '-' ∉ b →
      Py.splitSub threeDashes (b ++ threeDashes ++ rest)
        = b :: Py.splitSub threeDashes rest := by
  intro b
  induction b with
  | nil =>
    intro _
    show Py.splitSubF _ (rest.length + 2 + 1) ('-' :: '-' :: '-' :: rest) = _
    simp only [Py.splitSubF]
    rw [if_pos ⟨by simp [threeDashes_eq, List.isPrefixOf], by simp [threeDashes_eq]⟩]
    rw [show threeDashes.length = 3 from rfl]
    simp only [List.drop_succ_cons, List.drop_zero]
    rw [splitSubF_fuel threeDashes (rest.length + 2) rest rest.length (by omega) le_rfl]
    rfl
  | cons c b' ih =>
    intro hb
    have hc : c ≠ '-' := fun h => hb (h ▸ List.mem_cons_self _ _)
    have hb' : '-' ∉ b' := fun h => hb (List.mem_cons_of_mem _ h)
    show Py.splitSubF _ ((c :: b' ++ threeDashes ++ rest).length) _ = _
    have hlen : (c :: b' ++ threeDashes ++ rest).length
        = (b' ++ threeDashes ++ rest).length + 1 := by simp
    rw [hlen]
    simp only [Py.splitSubF, List.cons_append, List.append_eq]
    rw [if_neg ?hneg]
    case hneg =>
      rintro ⟨hpre, -⟩
      obtain ⟨t, ht⟩ := List.isPrefixOf_iff_prefix.mp hpre
      rw [threeDashes_eq] at ht
      simp only [List.cons_append] at ht
      exact hc (List.cons.injEq .. ▸ ht).1.symm
    rw [show Py.splitSubF threeDashes (b' ++ threeDashes ++ rest).length
          (b' ++ threeDashes ++ rest) = Py.splitSub threeDashes (b' ++ threeDashes ++ rest)
        from rfl]
    rw [ih hb']

/-- Claim C8 (amended): `load_history` splits the file content at every
occurrence of the substring `---` (also in the middle of a line), and within
each piece the first two stripped non-comment non-blank lines become
`(wrong, right)` while further lines are ignored.  Stated via blocks joined
with `---`: for hyphen-free blocks the produced records are exactly the
per-block extractions. -/
theorem claim_c8_amended_split_on_substring (blocks : List (List Char))
    (hb : ∀ b ∈ blocks, '-' ∉ b) :
    loadHistoryRecords (joinSep blocks) = blocks.filterMap blockRecord := by
  induction blocks with
  | nil => rfl
  | cons b bs ih =>
    cases bs with
    | nil =>
      show (Py.splitSub threeDashes b).filterMap blockRecord = _
      rw [splitSub_no_dash b (hb b (List.mem_cons_self _ _))]
    | cons b2 bs2 =>
      show (Py.splitSub threeDashes (b ++ threeDashes ++ joinSep (b2 :: bs2))).filterMap
          blockRecord = _
      rw [splitSub_sep_append _ b (hb b (List.mem_cons_self _ _))]
      rw [List.filterMap_cons, List.filterMap_cons]
      have ih' := ih (fun x hx => hb x (List.mem_cons_of_mem _ hx))
      rw [show (Py.splitSub threeDashes (joinSep (b2 :: bs2))).filterMap blockRecord
            = loadHistoryRecords (joinSep (b2 :: bs2)) from rfl, ih']

/-- Witness for the amended C8 theorem on concrete content with two records,
one of them containing a comment line. -/
theorem claim_c8_amended_witness :
    loadHistoryRecords (joinSep ["张三\n李四".data, "# 注\n甲\n乙\n丙".data])
      = [("张三".data, "李四".data), ("甲".data, "乙".data)] := by
  rw [claim_c8_amended_split_on_substring _ (by decide)]
  decide

/-- Claim C8 counterexample: on the content `"甲---乙\n丙"`, whose only `---`
occurs inside a longer line, the source still splits there and produces the
record `(乙, 丙)`, while the spec's line-based reading produces
`(甲---乙, 丙)`. -/
theorem claim_c8_counterexample :
    loadHistoryRecords "甲---乙\n丙".data = [("乙".data, "丙".data)] ∧
    loadHistoryLineSpec "甲---乙\n丙".data = [("甲---乙".data, "丙".data)] := by
  decide

end Rectify

namespace Hotword

/-- Claim C6 counterexample: two zh tone-digit atoms with different values
(`'1'` vs `'2'`) get cost 1, not 0.5, from `get_phoneme_cost` — the
`Phoneme`-object cost function has no tone special case, so the claim as
stated (about "the edit cost function", sourced to both cost functions) is
false. -/
theorem claim_c6_counterexample :
    getPhonemeCost ⟨['1'], .zh, false, true, 0, 1⟩ ⟨['2'], .zh, false, true, 0, 1⟩ = 1 ∧
    (1 : ℚ) ≠ 1/2 ∧
    (⟨['1'], .zh, false, true, 0, 1⟩ : Phoneme).isTone = true ∧
    (⟨['2'], .zh, false, true, 0, 1⟩ : Phoneme).isTone = true := by
  refine ⟨?_, by norm_num, by decide, by decide⟩
  simp [getPhonemeCost, similarPair, SIMILAR_PHONEMES]

set_option maxHeartbeats 4000000 in
/-- Claim C6 (amended): for zh atoms whose values are differing single
digits, the tuple-form cost `get_tuple_cost` returns 0.5 (the tone special
case), while the `Phoneme`-object cost `get_phoneme_cost` has no tone case
and returns 1.0 (digit values belong to no similar-phoneme family). -/
theorem claim_c6_amended_tone_cost (t1 t2 : Phoneme)
    (h1 : t1.lang = Lang.zh) (h2 : t2.lang = Lang.zh)
    (hv1 : t1.value ∈ toneDigitValues) (hv2 : t2.value ∈ toneDigitValues)
    (hne : t1.value ≠ t2.value) :
    getTupleCost t1 t2 = 1/2 ∧ getPhonemeCost t1 t2 = 1 := by
  obtain ⟨v1, l1, ws1, we1, cs1, ce1⟩ := t1
  obtain ⟨v2, l2, ws2, we2, cs2, ce2⟩ := t2
  have h1' : l1 = Lang.zh := h1
  have h2' : l2 = Lang.zh := h2
  subst h1' h2'
  have hv1' : v1 ∈ toneDigitValues := hv1
  have hv2' : v2 ∈ toneDigitValues := hv2
  have hne' : v1 ≠ v2 := fun h => hne (by simpa using h)
  clear h1 h2 hv1 hv2 hne
  simp only [toneDigitValues, List.mem_cons, List.not_mem_nil, or_false] at hv1' hv2'
  rcases hv1' with rfl | rfl | rfl | rfl | rfl | rfl | rfl | rfl | rfl | rfl <;>
    rcases hv2' with rfl | rfl | rfl | rfl | rfl | rfl | rfl | rfl | rfl | rfl <;>
    first
      | exact absurd rfl hne'
      | exact ⟨by simp [getTupleCost, Phoneme.isTone],
          by simp [getPhonemeCost, similarPair, SIMILAR_PHONEMES]⟩

/-- Witness for the amended C6 theorem at tone values `'1'` and `'2'`. -/
theorem claim_c6_amended_witness :
    getTupleCost ⟨['1'], .zh, false, true, 0, 1⟩ ⟨['2'], .zh, false, true, 0, 1⟩ = 1/2 ∧
    getPhonemeCost ⟨['1'], .zh, false, true, 0, 1⟩ ⟨['2'], .zh, false, true, 0, 1⟩ = 1 :=
  claim_c6_amended_tone_cost _ _ rfl rfl (by decide) (by decide) (by decide)

end Hotword

namespace Hotword

/-- `infoUpdate` touches only `all_info`/`seen`. -/
theorem infoUpdate_final (st : RState) (m : MatchR) :
    (infoUpdate st m).final = st.final := by
  unfold infoUpdate; split <;> rfl

/-- `infoUpdate` touches only `all_info`/`seen`. -/
theorem infoUpdate_occupied (st : RState) (m : MatchR) :
    (infoUpdate st m).occupied = st.occupied := by
  unfold infoUpdate; split <;> rfl

/-- Loop invariant of `_resolve_and_replace`: occupied spans are pairwise
non-overlapping, the spans of `final` form a sublist of `occupied`, and
every emitted replacement differs from the text it replaces. -/
def ResolveInv (text : List Char) (st : RState) : Prop :=
  st.occupied.Pairwise (fun a b => a.2 ≤ b.1 ∨ b.2 ≤ a.1) ∧
  List.Sublist (st.final.map fun mm => (mm.start, mm.stop)) st.occupied ∧
  ∀ mm ∈ st.final, Py.slice text mm.start mm.stop ≠ mm.hotword

theorem resolveInv_infoUpdate (text : List Char) (st : RState) (m : MatchR) :
    ResolveInv text (infoUpdate st m) ↔ ResolveInv text st := by
  unfold infoUpdate; split <;> exact Iff.rfl

theorem resolveInv_step (t : ℚ) (text : List Char) (m : MatchR) (st : RState)
    (h : ResolveInv text st) : ResolveInv text (resolveStep t text st m) := by
  have h' : ResolveInv text (infoUpdate st m) := (resolveInv_infoUpdate text st m).mpr h
  simp only [resolveStep]
  split
  · exact h'
  · split
    · exact h'
    · next hany =>
      have hocc : ∀ r ∈ (infoUpdate st m).occupied, m.stop ≤ r.1 ∨ r.2 ≤ m.start := by
        intro r hr
        by_contra hcon
        exact hany (List.any_eq_true.mpr ⟨r, hr, decide_eq_true hcon⟩)
      obtain ⟨h1, h2, h3⟩ := h'
      split
      · next hne =>
        refine ⟨?_, ?_, ?_⟩
        · refine List.pairwise_append.mpr ⟨h1, List.pairwise_singleton _ _, ?_⟩
          intro a ha b hb
          rw [List.mem_singleton] at hb
          subst hb
          exact (hocc a ha).symm.imp id id
        · simp only [List.map_append, List.map_cons, List.map_nil]
          exact List.Sublist.append h2 (List.Sublist.refl _)
        · intro mm hmm
          rcases List.mem_append.mp hmm with hold | hnew
          · exact h3 mm hold
          · rw [List.mem_singleton] at hnew
            subst hnew
            exact hne
      · refine ⟨?_, ?_, h3⟩
        · refine List.pairwise_append.mpr ⟨h1, List.pairwise_singleton _ _, ?_⟩
          intro a ha b hb
          rw [List.mem_singleton] at hb
          subst hb
          exact (hocc a ha).symm.imp id id
        · exact h2.trans (List.sublist_append_left _ _)

theorem resolveInv_foldl (t : ℚ) (text : List Char) :
    ∀ (ms : List MatchR) (st : RState), ResolveInv text st →
      ResolveInv text (ms.foldl (resolveStep t text) st) := by
  intro ms
  induction ms with
  | nil => intro st h; exact h
  | cons m ms ih => intro st h; exact ih _ (resolveInv_step t text m st h)

/-- Claim C2: after `_resolve_and_replace`'s resolution, the character spans
of the replacements actually applied (the `final` list) are pairwise
non-overlapping, and a replacement is emitted only when
`text[start:end] != hotword`.  (Resolution sorts by score desc then span
length desc and greedily accepts non-overlapping spans — `resolveCore`.) -/
theorem claim_c2_applied_spans_nonoverlap (t : ℚ) (text : List Char) (ms : List MatchR) :
    (resolveCore t text ms).final.Pairwise
      (fun a b => a.stop ≤ b.start ∨ b.stop ≤ a.start) ∧
    ∀ m ∈ (resolveCore t text ms).final, Py.slice text m.start m.stop ≠ m.hotword := by
  have h : ResolveInv text (resolveCore t text ms) :=
    resolveInv_foldl t text (sortMatchesDesc ms) {}
      ⟨List.Pairwise.nil, by simp, by simp⟩
  obtain ⟨h1, h2, h3⟩ := h
  refine ⟨?_, h3⟩
  exact List.pairwise_map.mp (List.Pairwise.sublist h2 h1)

/-- A match that is below threshold or overlaps an occupied span contributes
nothing to `final`. -/
theorem resolveStep_final_eq (t : ℚ) (text : List Char) (st : RState) (m2 : MatchR)
    (hcase : m2.score < t ∨ ∃ r ∈ st.occupied, ¬ (m2.stop ≤ r.1 ∨ m2.start ≥ r.2)) :
    (resolveStep t text st m2).final = st.final := by
  simp only [resolveStep]
  by_cases hsc : m2.score < t
  · rw [if_pos hsc, infoUpdate_final]
  · rcases hcase with hsc' | ⟨r, hr, hro⟩
    · exact absurd hsc' hsc
    · rw [if_neg hsc,
        if_pos (List.any_eq_true.mpr ⟨r, by rw [infoUpdate_occupied]; exact hr,
          decide_eq_true hro⟩),
        infoUpdate_final]

/-- An accepted first match whose text slice already equals the hotword
emits nothing but occupies its span. -/
theorem resolveStep_empty_verbatim (t : ℚ) (text : List Char) (m : MatchR)
    (hs : ¬ m.score < t) (hslice : Py.slice text m.start m.stop = m.hotword) :
    resolveStep t text {} m
      = { final := [], allInfo := [(m.hotword, m.score)],
          seen := [(m.hotword, m.score)], occupied := [(m.start, m.stop)] } := by
  have hinfo : infoUpdate {} m
      = { final := [], allInfo := [(m.hotword, m.score)],
          seen := [(m.hotword, m.score)], occupied := [] } := by
    simp [infoUpdate]
  simp only [resolveStep, hinfo]
  rw [if_neg hs]
  rw [if_neg (by simp)]
  rw [if_neg (by simp [hslice])]
  rfl

/-- Claim C10: in `_resolve_and_replace`, a top-ranked match `m` with score
at or above the threshold occupies its span even when `text[start:end]`
already equals the hotword (so it emits no replacement), and a lower-ranked
match `m2` overlapping that span is discarded rather than applied: the
output text is unchanged and no replacement is applied. -/
theorem claim_c10_verbatim_match_occupies (t : ℚ) (text : List Char) (m m2 : MatchR)
    (hs : t ≤ m.score)
    (hslice : Py.slice text m.start m.stop = m.hotword)
    (hrank : m2.score < m.score)
    (hov : ¬ (m2.stop ≤ m.start ∨ m2.start ≥ m.stop)) :
    (resolveAndReplace t text [m, m2]).1 = text ∧
    (resolveAndReplace t text [m, m2]).2.1 = [] := by
  have hsort : sortMatchesDesc [m, m2] = [m, m2] := by
    have hgt : (decide (m.score < m2.score ∨
        (m.score = m2.score ∧ m.stop - m.start < m2.stop - m2.start)) : Bool) = false := by
      apply decide_eq_false
      rintro (h | ⟨h, -⟩)
      · exact absurd hrank (not_lt.mpr (le_of_lt h))
      · exact absurd h (ne_of_gt hrank)
    simp only [sortMatchesDesc, Py.sortOrd, Py.insertOrd, hgt, Bool.false_eq_true, if_false]
  have hfin : (resolveCore t text [m, m2]).final = [] := by
    rw [resolveCore, hsort]
    show (resolveStep t text (resolveStep t text {} m) m2).final = []
    rw [resolveStep_empty_verbatim t text m (not_lt.mpr hs) hslice]
    rw [resolveStep_final_eq t text _ m2
      (Or.inr ⟨(m.start, m.stop), List.mem_singleton.mpr rfl, hov⟩)]
  constructor
  · simp only [resolveAndReplace, hfin, Py.sortOrd, List.foldl_nil]
  · simp only [resolveAndReplace, hfin, Py.sortOrd, List.map_nil]

/-- Witness for C10 at a concrete input: hotword `今天` already present at
span (0,2) with score 1; the overlapping lower-ranked match at span (1,3)
is discarded, so nothing is replaced. -/
theorem claim_c10_witness :
    (resolveAndReplace 0 "今天好".data
      [⟨0, 2, 1, "今天".data⟩, ⟨1, 3, 1/2, "某某".data⟩]).1 = "今天好".data ∧
    (resolveAndReplace 0 "今天好".data
      [⟨0, 2, 1, "今天".data⟩, ⟨1, 3, 1/2, "某某".data⟩]).2.1 = [] :=
  claim_c10_verbatim_match_occupies 0 "今天好".data _ _
    (show (0:ℚ) ≤ 1 by norm_num) (by decide) (show (1/2:ℚ) < 1 by norm_num) (by decide)

/-- `_encode` (single value): only `ph_to_id` can change, by appending. -/
theorem encodeOne_state (st : RagState) (v : List Char) :
    (encodeOne st v).2.index = st.index ∧
    (encodeOne st v).2.threshold = st.threshold ∧
    (encodeOne st v).2.hotwordCount = st.hotwordCount ∧
    st.phToId <+: (encodeOne st v).2.phToId := by
  rcases h : Py.assocFind st.phToId v with - | i <;> simp [encodeOne, h]

/-- `_encode` (single value): no change when the value is already mapped. -/
theorem encodeOne_found (st : RagState) (v : List Char) (i : Nat)
    (h : Py.assocFind st.phToId v = some i) : (encodeOne st v).2 = st := by
  simp [encodeOne, h]

/-- `_encode`: only `ph_to_id` can change, by appending new ids. -/
theorem encode_state (phs : List Phoneme) : ∀ st : RagState,
    (encode st phs).2.index = st.index ∧
    (encode st phs).2.threshold = st.threshold ∧
    (encode st phs).2.hotwordCount = st.hotwordCount ∧
    st.phToId <+: (encode st phs).2.phToId := by
  induction phs with
  | nil => intro st; exact ⟨rfl, rfl, rfl, List.prefix_rfl⟩
  | cons p ps ih =>
    intro st
    obtain ⟨e1, e2, e3, e4⟩ := encodeOne_state st p.value
    obtain ⟨f1, f2, f3, f4⟩ := ih (encodeOne st p.value).2
    exact ⟨by rw [encode]; rw [f1, e1], by rw [encode]; rw [f2, e2],
      by rw [encode]; rw [f3, e3], by rw [encode]; exact e4.trans f4⟩

/-- `_encode` leaves the state unchanged when every value is already
mapped. -/
theorem encode_found (phs : List Phoneme) : ∀ st : RagState,
    (∀ p ∈ phs, Py.assocFind st.phToId p.value ≠ none) → (encode st phs).2 = st := by
  induction phs with
  | nil => intro st _; rfl
  | cons p ps ih =>
    intro st H
    obtain ⟨i, hi⟩ := Option.ne_none_iff_exists'.mp (H p (List.mem_cons_self _ _))
    have he : (encodeOne st p.value).2 = st := encodeOne_found st p.value i hi
    rw [encode]
    simp only [he]
    exact ih st (fun q hq => H q (List.mem_cons_of_mem _ hq))

/-- Claim C9 (amended): `FastRAG.search` leaves the inverted index, the
threshold and the count unchanged, but it encodes the query through
`_encode`, which allocates ids on first sight: `ph_to_id` is extended (as a
prefix-preserving append) with entries for query phoneme values unseen at
index-build time.  When every query value is already mapped, the state is
unchanged.  Readers therefore do NOT see an immutable mapping in general. -/
theorem claim_c9_amended_search_allocates (st : RagState) (phs : List Phoneme) (k : Nat) :
    (ragSearch st phs k).2.index = st.index ∧
    (ragSearch st phs k).2.threshold = st.threshold ∧
    (ragSearch st phs k).2.hotwordCount = st.hotwordCount ∧
    st.phToId <+: (ragSearch st phs k).2.phToId ∧
    ((∀ p ∈ phs, Py.assocFind st.phToId p.value ≠ none) → (ragSearch st phs k).2 = st) := by
  by_cases hph : phs = []
  · subst hph
    simp only [ragSearch, if_pos rfl]
    exact ⟨rfl, rfl, rfl, List.prefix_rfl, fun _ => rfl⟩
  · have h2 : (ragSearch st phs k).2 = (encode st phs).2 := by
      simp only [ragSearch, if_neg hph]
    obtain ⟨e1, e2, e3, e4⟩ := encode_state phs st
    rw [h2]
    exact ⟨e1, e2, e3, e4, fun H => encode_found phs st H⟩

/-- Witness for the amended C9 theorem: for a query whose only value `m` was
already mapped while indexing, `search` leaves the whole state unchanged. -/
theorem claim_c9_amended_witness :
    (ragSearch (addHotwords ⟨1/2, [], [], 0⟩
        [("麦".data, [⟨"m".data, .zh, true, false, 0, 1⟩])])
      [⟨"m".data, .zh, true, true, 0, 1⟩] 10).2
    = addHotwords ⟨1/2, [], [], 0⟩ [("麦".data, [⟨"m".data, .zh, true, false, 0, 1⟩])] :=
  (claim_c9_amended_search_allocates _ _ 10).2.2.2.2 (by decide)

/-- Claim C9 counterexample: a `search` for a query containing the unseen
phoneme value `x` allocates a new id, mutating `ph_to_id` — `search` is not
a pure read of the index state, refuting "ids are allocated only while the
writer builds the index in add_hotwords". -/
theorem claim_c9_counterexample :
    (ragSearch (addHotwords ⟨1/2, [], [], 0⟩
        [("麦".data, [⟨"m".data, .zh, true, false, 0, 1⟩])])
      [⟨"x".data, .zh, true, true, 0, 1⟩] 10).2.phToId
    ≠ (addHotwords ⟨1/2, [], [], 0⟩
        [("麦".data, [⟨"m".data, .zh, true, false, 0, 1⟩])]).phToId := by
  decide

end Hotword

namespace Hotword

/-- A successful dict lookup pairs a key with a stored value. -/
theorem assocFind_mem {α : Type} :
    ∀ (l : List (List Char × α)) (k : List Char) (v : α),
      Py.assocFind l k = some v → (k, v) ∈ l := by
  intro l
  induction l with
  | nil => intro k v h; simp [Py.assocFind] at h
  | cons p rest ih =>
    intro k v h
    obtain ⟨k', v'⟩ := p
    rw [Py.assocFind] at h
    by_cases hk : k' = k
    · rw [if_pos hk] at h
      obtain rfl := Option.some.inj h
      subst hk
      exact List.mem_cons_self _ _
    · rw [if_neg hk] at h
      exact List.mem_cons_of_mem _ (ih k v h)

/-- A fold of appends of empty lists is the accumulator. -/
theorem foldl_append_nil {α β : Type} (f : β → List α) :
    ∀ (l : List β) (acc : List α), (∀ b ∈ l, f b = []) →
      l.foldl (fun a b => a ++ f b) acc = acc := by
  intro l
  induction l with
  | nil => intro acc _; rfl
  | cons b bs ih =>
    intro acc H
    rw [List.foldl_cons, H b (List.mem_cons_self _ _), List.append_nil]
    exact ih acc (fun x hx => H x (List.mem_cons_of_mem _ hx))

/-- When no word-start-aligned window of the input reaches the threshold
against this hotword, the window scan records no match. -/
theorem windowMatches_eq_nil (t : ℚ) (phs : List Phoneme) (hw : List Char)
    (input : List Phoneme)
    (H : ∀ i s0 seg', i + phs.length ≤ input.length →
      (input.drop i).take phs.length = s0 :: seg' → s0.isWordStart = true →
      fuzzyScore phs (s0 :: seg') < t) :
    windowMatches t phs hw input = [] := by
  unfold windowMatches
  split
  · rfl
  · next hlen =>
    rw [List.filterMap_eq_nil_iff]
    intro i hi
    have hb : i < input.length - phs.length + 1 := List.mem_range.mp hi
    rw [not_lt] at hlen
    have hle : i + phs.length ≤ input.length := by omega
    cases hseg : ((input.drop i).take phs.length : List Phoneme) with
    | nil => simp only [hseg]
    | cons s0 seg' =>
      simp only [hseg]
      by_cases hws : s0.isWordStart
      · rw [if_neg (by simp [hws])]
        rw [if_neg (not_le.mpr (H i s0 seg' hle hseg hws))]
    
      · rw [if_pos (by simp [hws])]

/-- When no word-start-aligned window reaches the threshold against any
stored hotword, `_find_matches` produces no matches. -/
theorem collectMatches_eq_nil (t : ℚ) (hotwords : List (List Char × List Phoneme))
    (fastResults : List (List Char × ℚ)) (input : List Phoneme)
    (H : ∀ hw phs, (hw, phs) ∈ hotwords → ∀ i s0 seg',
      i + phs.length ≤ input.length →
      (input.drop i).take phs.length = s0 :: seg' → s0.isWordStart = true →
      fuzzyScore phs (s0 :: seg') < t) :
    collectMatches t hotwords fastResults input = [] := by
  unfold collectMatches
  apply foldl_append_nil
  intro r _
  unfold hwWindows
  cases hf : Py.assocFind hotwords r.1 with
  | none => rfl
  | some phs =>
    exact windowMatches_eq_nil t phs r.1 input (H r.1 phs (assocFind_mem _ _ _ hf))

/-- Resolving an empty match list leaves the text untouched. -/
theorem resolveAndReplace_nil (t : ℚ) (text : List Char) :
    (resolveAndReplace t text []).1 = text := rfl

/-- Claim C5: if no word-start-aligned same-length window of the input's
phoneme sequence reaches the similarity threshold against any loaded
hotword, then `PhonemeCorrector.correct` returns the input text
unchanged. -/
theorem claim_c5_correct_identity (G : List Char → List Phoneme) (t simT : ℚ)
    (d : List (List Char × List Phoneme)) (text : List Char) (topK : Nat)
    (H : ∀ hw phs, (hw, phs) ∈ d → ∀ i s0 seg',
      i + phs.length ≤ (G text).length →
      ((G text).drop i).take phs.length = s0 :: seg' →
      s0.isWordStart = true →
      fuzzyScore phs (s0 :: seg') < t) :
    (correct G (mkCorrector t simT d) text topK).text = text := by
  by_cases h0 : text = []
  · simp only [correct, if_pos h0]
    exact h0.symm
  · by_cases h1 : G text = []
    · simp [correct, if_neg h0, h1]
    · have hm : collectMatches (mkCorrector t simT d).threshold
          (mkCorrector t simT d).hotwords
          ((ragSearch (mkCorrector t simT d).rag (G text) 100).1) (G text) = [] :=
        collectMatches_eq_nil _ _ _ _ (fun hw phs hmem => H hw phs hmem)
      simp only [correct, if_neg h0, if_neg h1, hm]
      exact resolveAndReplace_nil _ text

/-- Witness for C5: a two-atom hotword against a one-atom input has no
window at all, and `correct` is the identity. -/
theorem claim_c5_witness :
    (correct (fun cs => cs.map (fun c => (⟨[c], .zh, true, true, 0, 1⟩ : Phoneme)))
      (mkCorrector (4/5) (3/5)
        [("麦当".data, [⟨"m".data, .zh, true, false, 0, 1⟩,
          ⟨"ai".data, .zh, false, false, 0, 1⟩])])
      "好".data 10).text = "好".data :=
  claim_c5_correct_identity _ (4/5) (3/5) _ _ 10 (by
    intro hw phs hmem i s0 seg' hle hseg hws
    simp only [List.mem_singleton, Prod.mk.injEq] at hmem
    obtain ⟨rfl, rfl⟩ := hmem
    simp only [List.length_map, List.length_cons, List.length_nil] at hle
    omega)

end Hotword

namespace ITN

/-- Claim C1 counterexample: the input `乱七八糟哈哈乱七八糟` contains two
occurrences of the blacklisted idiom `乱七八糟` (the second at index 6), but
`convert` rewrites the `七八` of the second occurrence to `78`: the idiom
guard uses `string.find`, which reports only the FIRST occurrence, so
repeated idioms are not protected.  The first occurrence (and the idiom
alone) are preserved. -/
theorem claim_c1_counterexample :
    itnConvert "乱七八糟哈哈乱七八糟".data = "乱七八糟哈哈乱78糟".data ∧
    Py.slice "乱七八糟哈哈乱七八糟".data 6 10 = "乱七八糟".data ∧
    itnConvert "乱七八糟".data = "乱七八糟".data := by
  decide

/-- Claim C1 (amended): a candidate is emitted unchanged whenever the FIRST
occurrence (`string.find`) of some blacklisted idiom starts at an index in
`[max(candidate_start - 2, 0), candidate_end)`; occurrences of an idiom
other than the first are not protected. -/
theorem claim_c1_amended_first_occurrence_guard (string : List Char)
    (lpos rpos : Nat) (orig : List Char)
    (h : ∃ idm ∈ IDIOMS, ∃ i, Py.find string idm = some i ∧ lpos ≤ i ∧ i < rpos) :
    itnBranch string lpos rpos orig = some orig := by
  obtain ⟨idm, hm, i, hf, h1, h2⟩ := h
  unfold itnBranch
  rw [if_pos ?hpos]
  case hpos =>
    apply List.any_eq_true.mpr
    refine ⟨idm, hm, ?_⟩
    rw [hf]
    exact decide_eq_true ⟨h1, h2⟩

/-- Witness for the amended C1 theorem: the first `七八` candidate of the
counterexample input is protected because the idiom's first occurrence
starts at index 0 within its window `[0, 3)`. -/
theorem claim_c1_amended_witness :
    itnBranch "乱七八糟哈哈乱七八糟".data 0 3 "七八".data = some "七八".data :=
  claim_c1_amended_first_occurrence_guard "乱七八糟哈哈乱七八糟".data 0 3 "七八".data
    ⟨"乱七八糟".data, by decide, 0, by decide, by decide, by decide⟩

/-- One accumulator step: `十` seeds 10 or multiplies `temp` by 10. -/
theorem valueNumLoop_ten (cs : List Char) (v t b : Nat) :
    valueNumLoop ('十' :: cs) (v, t, b)
      = valueNumLoop cs (v, if t = 0 then 10 else 10 * t, 1) := rfl

/-- One accumulator step: `零` resets the local base. -/
theorem valueNumLoop_zeroc (cs : List Char) (v t b : Nat) :
    valueNumLoop ('零' :: cs) (v, t, b) = valueNumLoop cs (v, t, 1) := rfl

/-- One accumulator step: `万` flushes `temp` into `value` and scales. -/
theorem valueNumLoop_wan (cs : List Char) (v t b : Nat) :
    valueNumLoop ('万' :: cs) (v, t, b) = valueNumLoop cs ((v + t) * 10000, 0, 1000) := rfl

/-- One accumulator step: `百` folds `temp * 100` into `value`. -/
theorem valueNumLoop_bai (cs : List Char) (v t b : Nat) :
    valueNumLoop ('百' :: cs) (v, t, b) = valueNumLoop cs (v + t * 100, 0, 10) := rfl

/-- One accumulator step: `千` folds `temp * 1000` into `value`. -/
theorem valueNumLoop_qian (cs : List Char) (v t b : Nat) :
    valueNumLoop ('千' :: cs) (v, t, b) = valueNumLoop cs (v + t * 1000, 0, 100) := rfl

/-- One accumulator step: `亿` matches NO branch of the loop and is
silently ignored (the state is unchanged). -/
theorem valueNumLoop_yi (cs : List Char) (v t b : Nat) :
    valueNumLoop ('亿' :: cs) (v, t, b) = valueNumLoop cs (v, t, b) := rfl

/-- One accumulator step: a digit adds its value into `temp`. -/
theorem valueNumLoop_digit (c : Char) (hc : c ∈ "一二三四五六七八九".data)
    (cs : List Char) (v t b : Nat) :
    valueNumLoop (c :: cs) (v, t, b)
      = valueNumLoop cs (v, t + chineseDigitToNum c, b) := by
  fin_cases hc <;> rfl

/-- Non-zero digits have non-zero values. -/
theorem chineseDigitToNum_pos (c : Char) (hc : c ∈ "一二三四五六七八九".data) :
    chineseDigitToNum c ≠ 0 := by
  fin_cases hc <;> decide

/-- Claim C7 (amended): the value-number accumulator respects the positional
semantics of `十`, `百`, `千` and `万` (`万` flushes and scales, `百`/`千`
fold the local sum multiplied, `零` resets the local base, a leading `十`
means 10) — but it has NO case for `亿`: a `亿` reaching the loop is
ignored without scaling, and a trailing `亿` is stripped as a unit and
re-appended verbatim, so `十亿` converts to `10亿`, not to `1000000000`. -/
theorem claim_c7_amended_accumulator (d0 d1 d2 d3 d4 : Char)
    (h0 : d0 ∈ "一二三四五六七八九".data) (h1 : d1 ∈ "一二三四五六七八九".data)
    (h2 : d2 ∈ "一二三四五六七八九".data) (h3 : d3 ∈ "一二三四五六七八九".data)
    (h4 : d4 ∈ "一二三四五六七八九".data) :
    valueNumOf [d1, '千', d2, '百', d3, '十', d4]
      = 1000 * chineseDigitToNum d1 + 100 * chineseDigitToNum d2
        + 10 * chineseDigitToNum d3 + chineseDigitToNum d4 ∧
    valueNumOf [d0, '万', d1, '千', d2, '百', d3, '十', d4]
      = 10000 * chineseDigitToNum d0 + 1000 * chineseDigitToNum d1
        + 100 * chineseDigitToNum d2 + 10 * chineseDigitToNum d3 + chineseDigitToNum d4 ∧
    valueNumOf ['十', d4] = 10 + chineseDigitToNum d4 ∧
    valueNumOf [d1, '百', '零', d4] = 100 * chineseDigitToNum d1 + chineseDigitToNum d4 ∧
    valueNumOf [d1, '亿', d4] = chineseDigitToNum d1 + chineseDigitToNum d4 ∧
    convertValueNum "十亿".data = some "10亿".data := by
  refine ⟨?_, ?_, ?_, ?_, ?_, by decide⟩
  · unfold valueNumOf
    rw [valueNumLoop_digit d1 h1, valueNumLoop_qian, valueNumLoop_digit d2 h2,
      valueNumLoop_bai, valueNumLoop_digit d3 h3, valueNumLoop_ten]
    rw [if_neg (by simpa using chineseDigitToNum_pos d3 h3)]
    rw [valueNumLoop_digit d4 h4]
    simp only [valueNumLoop, valueNumEnd]
    omega
  · unfold valueNumOf
    rw [valueNumLoop_digit d0 h0, valueNumLoop_wan, valueNumLoop_digit d1 h1,
      valueNumLoop_qian, valueNumLoop_digit d2 h2, valueNumLoop_bai,
      valueNumLoop_digit d3 h3, valueNumLoop_ten]
    rw [if_neg (by simpa using chineseDigitToNum_pos d3 h3)]
    rw [valueNumLoop_digit d4 h4]
    simp only [valueNumLoop, valueNumEnd]
    omega
  · unfold valueNumOf
    rw [valueNumLoop_ten, if_pos rfl, valueNumLoop_digit d4 h4]
    simp only [valueNumLoop, valueNumEnd]
    omega
  · unfold valueNumOf
    rw [valueNumLoop_digit d1 h1, valueNumLoop_bai, valueNumLoop_zeroc,
      valueNumLoop_digit d4 h4]
    simp only [valueNumLoop, valueNumEnd]
    omega
  · unfold valueNumOf
    rw [valueNumLoop_digit d1 h1, valueNumLoop_yi, valueNumLoop_digit d4 h4]
    simp only [valueNumLoop, valueNumEnd]
    omega

/-- Witness for the amended C7 theorem at `五千四百二十一`. -/
theorem claim_c7_amended_witness :
    valueNumOf ['五', '千', '四', '百', '二', '十', '一'] = 5421 := by
  rw [(claim_c7_amended_accumulator '三' '五' '四' '二' '一'
    (by decide) (by decide) (by decide) (by decide) (by decide)).1]
  decide

/-- Claim C7 counterexample: the candidate `十亿` is classified as a value
number (it survives the earlier branches and `_value_num` full-matches its
unit-stripped form `十`), yet `convert` yields `10亿`: the value is not
multiplied by 100000000 because the accumulator has no `亿` branch — the
trailing `亿` is stripped by `_strip_unit` and re-appended as a unit. -/
theorem claim_c7_counterexample :
    itnConvert "十亿".data = "10亿".data ∧
    (reFullmatch valueNumRE (stripTrailingUnit "十亿".data)).isSome = true ∧
    (reFullmatch pureNumRE (stripTrailingUnit "十亿".data)).isSome = false ∧
    "10亿".data ≠ "1000000000".data := by
  decide

end ITN
